import Mathlib

/-!
Verification of the zerodi Provider lifecycle runtime and the CLI dependency-graph
cycle detection, as a shallow embedding of the TypeScript source.

The Provider class (src/unnamed/part_002, lines 593-724) keeps three maps keyed by
scope identifier (`buildId`): `instances` (in-flight or settled build promises),
`counts` (reference counts) and `destroying` (in-flight destroy promises).
JavaScript's single-threaded cooperative scheduling is modelled by a small-step
event semantics: every synchronous segment of a method (the code between two
`await` suspension points) is one atomic event on an explicit state.  Promises are
modelled by identifiers into explicit stores recording their fate.
-/

deriving instance DecidableEq for Except

namespace Zerodi

/-- Association-list lookup (first match), the model of `Map.get`. -/
def alookup {κ α : Type} [DecidableEq κ] (k : κ) : List (κ × α) → Option α
  | [] => none
  | (k', v') :: t => if k = k' then some v' else alookup k t

/-- Association-list update, the model of `Map.set`: replaces in place, appends new
keys at the end (JavaScript `Map` insertion-order semantics). -/
def aset {κ α : Type} [DecidableEq κ] (k : κ) (v : α) : List (κ × α) → List (κ × α)
  | [] => [(k, v)]
  | (k', v') :: t => if k = k' then (k, v) :: t else (k', v') :: aset k v t

/-- Association-list deletion, the model of `Map.delete`. -/
def adel {κ α : Type} [DecidableEq κ] (k : κ) : List (κ × α) → List (κ × α)
  | [] => []
  | (k', v') :: t => if k = k' then adel k t else (k', v') :: adel k t

theorem alookup_aset_self {κ α : Type} [DecidableEq κ] (k : κ) (v : α)
    (l : List (κ × α)) : alookup k (aset k v l) = some v := by
  induction l with
  | nil => simp [aset, alookup]
  | cons h t ih =>
    obtain ⟨k', v'⟩ := h
    by_cases hk : k = k'
    · simp [aset, alookup, hk]
    · simp [aset, alookup, hk, ih]

theorem alookup_aset_ne {κ α : Type} [DecidableEq κ] {k k' : κ} (v : α)
    (l : List (κ × α)) (h : k ≠ k') : alookup k (aset k' v l) = alookup k l := by
  induction l with
  | nil => simp [aset, alookup, h]
  | cons hd t ih =>
    obtain ⟨k'', v''⟩ := hd
    by_cases hk : k' = k''
    · subst hk
      simp [aset, alookup, h]
    · by_cases hk2 : k = k''
      · simp [aset, alookup, hk, hk2]
      · simp [aset, alookup, hk, hk2, ih]

theorem alookup_adel_self {κ α : Type} [DecidableEq κ] (k : κ)
    (l : List (κ × α)) : alookup k (adel k l) = none := by
  induction l with
  | nil => simp [adel, alookup]
  | cons hd t ih =>
    obtain ⟨k', v'⟩ := hd
    by_cases hk : k = k'
    · subst hk
      simp [adel, ih]
    · simp [adel, alookup, hk, ih]

theorem alookup_adel_ne {κ α : Type} [DecidableEq κ] {k k' : κ}
    (l : List (κ × α)) (h : k ≠ k') : alookup k (adel k' l) = alookup k l := by
  induction l with
  | nil => simp [adel, alookup]
  | cons hd t ih =>
    obtain ⟨k'', v''⟩ := hd
    by_cases hk : k' = k''
    · subst hk
      simp [adel, alookup, h, ih]
    · by_cases hk2 : k = k''
      · simp [adel, alookup, hk, hk2]
      · simp [adel, alookup, hk, hk2, ih]

/-- Fate of a build promise stored in `instances` (the promise produced by
`this.build(bId).catch(...)` at src/unnamed/part_002 line 623). -/
inductive BState where
  | pending
  | fulfilled (v : Nat)
  | rejected (e : String)
deriving DecidableEq, Repr

/-- Progress of a destroy operation: the async IIFE of `Provider.destroy`
(src/unnamed/part_002 lines 681-701).  `waitInst pid` is the segment awaiting the
cached build promise, `waitCb` awaits the destroy callback, `waitDeps` awaits the
dependency disposal, `finished` means the promise resolved, `failedJ e` means it
rejected with error `e`. -/
inductive DJob where
  | waitInst (pid : Nat)
  | waitCb (v : Nat)
  | waitDeps
  | finished
  | failedJ (e : String)
deriving DecidableEq, Repr

/-- Static configuration of one Provider (the `ProviderConfig` fields that the
lifecycle engine reads: `singleton`, `disableDisposeDestroy`, whether a `destroy`
callback was supplied, and the dependency keys).  `hookInstalled` records whether
the process-wide resolver hook `Provider.get` has been replaced by generated code
(src/unnamed/part_002 lines 598-607): when it has not and the Provider has
dependencies, dependency resolution throws the "not initilized" error. -/
structure Config where
  singleton : Bool
  disableDisposeDestroy : Bool
  hasDestroy : Bool
  deps : Option (List String)
  hookInstalled : Bool
deriving DecidableEq, Repr

/-- The guard `this.config.deps && Object.keys(this.config.deps).length > 0`
used by both `build` (line 655) and `destroy` (line 688). -/
def Config.hasDeps (c : Config) : Bool :=
  match c.deps with
  | none => false
  | some ds => !ds.isEmpty

/-- The runtime state of one Provider: its three maps (`instances`, `counts`,
`destroying`), the promise stores backing them, the calls parked on an `await` of
a destroy promise inside `get`, fresh-identifier counters and observation
counters (number of build starts, destroy-callback invocations, invocations of
the static resolver hook, and dispose calls). -/
structure St where
  instances : List (String × Nat)
  counts : List (String × Int)
  destroying : List (String × Nat)
  bpromises : List (Nat × BState)
  dstore : List (Nat × DJob)
  parked : List (Nat × String × Nat)
  nextPid : Nat
  nextDid : Nat
  nextGid : Nat
  buildCalls : Nat
  destroyCbCalls : Nat
  resolverCalls : Nat
  disposeCalls : Nat
deriving DecidableEq, Repr

/-- The freshly constructed Provider: all maps empty (lines 609-611). -/
def initSt : St :=
  { instances := [], counts := [], destroying := [], bpromises := [], dstore := []
    parked := [], nextPid := 0, nextDid := 0, nextGid := 0, buildCalls := 0
    destroyCbCalls := 0, resolverCalls := 0, disposeCalls := 0 }

/-- `parseBuildId` (lines 721-723): `config.singleton || params === undefined ?
'singleton' : params`. -/
def parseBuildId (cfg : Config) (b : Option String) : String :=
  if cfg.singleton then "singleton"
  else
    match b with
    | none => "singleton"
    | some x => x

/-- The error message thrown by the uninstalled resolver hook (line 605). -/
def notInitMsg : String :=
  "Providers not initilized, to resolve this import in main file generated zerodi file"

/-- Observable outcome of one event: what the calling task is now doing. -/
inductive Out where
  | waiting (pid : Nat)
  | parkedO (gid : Nat)
  | errD (e : String)
  | disposeDone
  | awaitD (did : Nat)
deriving DecidableEq, Repr

/-- The main body of `get` (lines 621-633), which runs synchronously once the
`destroying` check has passed: read the cache, start a build if absent (storing
the in-flight promise immediately), increment the reference count, and await the
cached promise.  Starting a build invokes the factory (via `this.build`, which
first consults the resolver hook exactly when the dependency map is nonempty,
line 655). -/
def mainGet (cfg : Config) (bId : String) (s : St) : St × Out :=
  match alookup bId s.instances with
  | some pid =>
    ({ s with counts := aset bId ((alookup bId s.counts).getD 0 + 1) s.counts },
     Out.waiting pid)
  | none =>
    let pid := s.nextPid
    ({ s with
        instances := aset bId pid s.instances
        bpromises := aset pid BState.pending s.bpromises
        counts := aset bId ((alookup bId s.counts).getD 0 + 1) s.counts
        nextPid := pid + 1
        buildCalls := s.buildCalls + 1
        resolverCalls := s.resolverCalls + (if cfg.hasDeps then 1 else 0) },
     Out.waiting pid)

/-- The synchronous prefix of `get` (lines 615-619): if a destroy promise exists
for the scope identifier, the call suspends on it (is parked); otherwise the main
body runs atomically. -/
def getStepF (cfg : Config) (b : Option String) (s : St) : St × Out :=
  let bId := parseBuildId cfg b
  match alookup bId s.destroying with
  | some did =>
    ({ s with parked := aset s.nextGid (bId, did) s.parked, nextGid := s.nextGid + 1 },
     Out.parkedO s.nextGid)
  | none => mainGet cfg bId s

/-- Resumption of a `get` parked on a destroy promise: once that promise settles,
a rejected promise rethrows out of `get` (line 619), a resolved one lets the main
body run against the CURRENT state (the code never re-checks `destroying`). -/
def resumeGetF (cfg : Config) (gid : Nat) (s : St) : St × Option Out :=
  match alookup gid s.parked with
  | none => (s, none)
  | some (bId, did) =>
    match alookup did s.dstore with
    | some DJob.finished =>
      let r := mainGet cfg bId { s with parked := adel gid s.parked }
      (r.1, some r.2)
    | some (DJob.failedJ e) => ({ s with parked := adel gid s.parked }, some (Out.errD e))
    | _ => (s, none)

/-- Settlement of a pending build with a factory result `v`.  When the Provider
has dependencies but the resolver hook is not installed, the build body throws
before reaching the factory, so it cannot fulfil. -/
def settleBuildF (cfg : Config) (bId : String) (v : Nat) (s : St) : St :=
  match alookup bId s.instances with
  | some pid =>
    match alookup pid s.bpromises with
    | some BState.pending =>
      if cfg.hasDeps && !cfg.hookInstalled then s
      else { s with bpromises := aset pid (BState.fulfilled v) s.bpromises }
    | _ => s
  | none => s

/-- Rejection of a pending build: the `.catch` handler installed at lines 623-626
removes the scope identifier's cache entry and re-throws, so the stored promise
rejects and the entry is gone. -/
def failBuildF (bId : String) (e : String) (s : St) : St :=
  match alookup bId s.instances with
  | some pid =>
    match alookup pid s.bpromises with
    | some BState.pending =>
      { s with bpromises := aset pid (BState.rejected e) s.bpromises
               instances := adel bId s.instances }
    | _ => s
  | none => s

/-- The synchronous prefix of `destroy` (lines 676-704): reuse an in-flight
destroy promise if present; otherwise start the IIFE, which runs synchronously up
to its first `await`.  With no cached instance it returns at once (line 683) — the
promise is already resolved when `destroying.set` runs, and NOTHING ever deletes
that entry (the deletes at lines 698-700 were skipped by the early return).  With
a cached instance the IIFE suspends awaiting it, after `destroying.set`. -/
def destroyStartF (bId : String) (s : St) : St × Out :=
  match alookup bId s.destroying with
  | some did => (s, Out.awaitD did)
  | none =>
    let did := s.nextDid
    match alookup bId s.instances with
    | none =>
      ({ s with dstore := aset did DJob.finished s.dstore
                destroying := aset bId did s.destroying
                nextDid := did + 1 },
       Out.awaitD did)
    | some pid =>
      ({ s with dstore := aset did (DJob.waitInst pid) s.dstore
                destroying := aset bId did s.destroying
                nextDid := did + 1 },
       Out.awaitD did)

/-- `dispose` (lines 636-648): decrement the count clamped at zero — the map entry
is written even for a never-seen scope identifier — then, unless the new count is
positive or `disableDisposeDestroy` is set, call `destroy` (whose synchronous
prefix runs within the same segment) and await it. -/
def disposeF (cfg : Config) (b : Option String) (s : St) : St × Out :=
  let bId := parseBuildId cfg b
  let c := (alookup bId s.counts).getD 0
  let nextCount := max (c - 1) 0
  let s1 := { s with counts := aset bId nextCount s.counts
                     disposeCalls := s.disposeCalls + 1 }
  if 0 < nextCount then (s1, Out.disposeDone)
  else if cfg.disableDisposeDestroy then (s1, Out.disposeDone)
  else destroyStartF bId s1

/-- The destroy IIFE resuming from `await instance` (line 685): with the build
fulfilled it invokes the destroy callback when one is configured (line 686,
counted) or passes straight on; with the build rejected the `await` throws and
the whole IIFE rejects with that error — performing NO cleanup. -/
def destroyObserveF (cfg : Config) (bId : String) (s : St) : St :=
  match alookup bId s.destroying with
  | none => s
  | some did =>
    match alookup did s.dstore with
    | some (DJob.waitInst pid) =>
      match alookup pid s.bpromises with
      | some (BState.fulfilled v) =>
        if cfg.hasDestroy then
          { s with dstore := aset did (DJob.waitCb v) s.dstore
                   destroyCbCalls := s.destroyCbCalls + 1 }
        else { s with dstore := aset did DJob.waitDeps s.dstore }
      | some (BState.rejected e) =>
        { s with dstore := aset did (DJob.failedJ e) s.dstore }
      | _ => s
    | _ => s

/-- The destroy callback returning normally: the IIFE proceeds to dependency
disposal. -/
def destroyCbOkF (bId : String) (s : St) : St :=
  match alookup bId s.destroying with
  | none => s
  | some did =>
    match alookup did s.dstore with
    | some (DJob.waitCb _) => { s with dstore := aset did DJob.waitDeps s.dstore }
    | _ => s

/-- The destroy callback throwing: the IIFE rejects with the callback's error.
The deletes at lines 698-700 never execute — no cleanup of any of the three maps,
and the rejected promise stays in `destroying`. -/
def destroyCbFailF (bId : String) (e : String) (s : St) : St :=
  match alookup bId s.destroying with
  | none => s
  | some did =>
    match alookup did s.dstore with
    | some (DJob.waitCb _) => { s with dstore := aset did (DJob.failedJ e) s.dstore }
    | _ => s

/-- The final segment of the destroy IIFE (lines 688-700): dispose each
dependency (consulting the resolver hook when the dependency map is nonempty —
throwing instead if the hook is not installed), then delete the scope
identifier's entries from `instances`, `counts` and `destroying`, and resolve. -/
def destroyFinishF (cfg : Config) (bId : String) (s : St) : St :=
  match alookup bId s.destroying with
  | none => s
  | some did =>
    match alookup did s.dstore with
    | some DJob.waitDeps =>
      if cfg.hasDeps && !cfg.hookInstalled then
        { s with dstore := aset did (DJob.failedJ notInitMsg) s.dstore }
      else
        { s with instances := adel bId s.instances
                 counts := adel bId s.counts
                 destroying := adel bId s.destroying
                 dstore := aset did DJob.finished s.dstore
                 resolverCalls := s.resolverCalls + (if cfg.hasDeps then 1 else 0) }
    | _ => s

/-- Atomic events of the cooperative scheduler: each is one synchronous segment of
one Provider operation, or a promise settlement. -/
inductive Ev where
  | getStep (b : Option String)
  | resumeGet (gid : Nat)
  | settleBuild (bId : String) (v : Nat)
  | failBuild (bId : String) (e : String)
  | dispose (b : Option String)
  | destroyStart (b : Option String)
  | destroyObserve (bId : String)
  | destroyCbOk (bId : String)
  | destroyCbFail (bId : String) (e : String)
  | destroyFinish (bId : String)
deriving DecidableEq, Repr

/-- One scheduler step. -/
def step (cfg : Config) (ev : Ev) (s : St) : St × Option Out :=
  match ev with
  | Ev.getStep b =>
    let r := getStepF cfg b s
    (r.1, some r.2)
  | Ev.resumeGet gid => resumeGetF cfg gid s
  | Ev.settleBuild bId v => (settleBuildF cfg bId v s, none)
  | Ev.failBuild bId e => (failBuildF bId e s, none)
  | Ev.dispose b =>
    let r := disposeF cfg b s
    (r.1, some r.2)
  | Ev.destroyStart b =>
    let r := destroyStartF (parseBuildId cfg b) s
    (r.1, some r.2)
  | Ev.destroyObserve bId => (destroyObserveF cfg bId s, none)
  | Ev.destroyCbOk bId => (destroyCbOkF bId s, none)
  | Ev.destroyCbFail bId e => (destroyCbFailF bId e s, none)
  | Ev.destroyFinish bId => (destroyFinishF cfg bId s, none)

/-- Run a sequence of scheduler steps. -/
def exec (cfg : Config) : List Ev → St → St
  | [], s => s
  | ev :: t, s => exec cfg t (step cfg ev s).1

/-- The outcome of each step along a trace, in order. -/
def traceOuts (cfg : Config) : List Ev → St → List (Option Out)
  | [], _ => []
  | ev :: t, s => (step cfg ev s).2 :: traceOuts cfg t (step cfg ev s).1

/-- What a `get` call whose segment produced outcome `o` eventually returns, read
off the (later) state `s`: a call awaiting a build promise returns its fate. -/
def getResult (s : St) : Out → Option (Except String Nat)
  | Out.waiting pid =>
    match alookup pid s.bpromises with
    | some (BState.fulfilled v) => some (Except.ok v)
    | some (BState.rejected e) => some (Except.error e)
    | _ => none
  | Out.errD e => some (Except.error e)
  | _ => none

/-- Fate of a destroy promise: what a caller awaiting it observes. -/
def dFate (s : St) (did : Nat) : Option (Except String Unit) :=
  match alookup did s.dstore with
  | some DJob.finished => some (Except.ok ())
  | some (DJob.failedJ e) => some (Except.error e)
  | _ => none

/-- A complete sequential `get` call: the synchronous prefix, then the build (if
one was started and is still pending) settles according to the factory result
`bres`. -/
def getRun (cfg : Config) (bres : Except String Nat) (b : Option String) (s : St) :
    St × Option (Except String Nat) :=
  let bId := parseBuildId cfg b
  let r := getStepF cfg b s
  let s2 :=
    (step cfg
      (match bres with
       | Except.ok v => Ev.settleBuild bId v
       | Except.error e => Ev.failBuild bId e) r.1).1
  (s2, getResult s2 r.2)

/-- A complete sequential `dispose` call: the synchronous segment, then — if a
destroy was triggered — the destroy IIFE driven to completion, its callback
settling according to `dres`.  The caller observes the fate of the awaited
destroy promise (`await this.destroy(bId)`, line 647). -/
def disposeRun (cfg : Config) (dres : Except String Unit) (b : Option String) (s : St) :
    St × Option (Except String Unit) :=
  let bId := parseBuildId cfg b
  let r := disposeF cfg b s
  let evs :=
    Ev.destroyObserve bId ::
      ((match dres with
        | Except.ok _ => [Ev.destroyCbOk bId]
        | Except.error e => [Ev.destroyCbFail bId e]) ++ [Ev.destroyFinish bId])
  let s2 := exec cfg evs r.1
  (s2,
    match r.2 with
    | Out.disposeDone => some (Except.ok ())
    | Out.awaitD did => dFate s2 did
    | _ => none)

/-- A complete sequential `use` call (lines 709-719): `get`, then the callback
(result `fnRes`), then `dispose` in the `finally` block.  JavaScript `finally`
semantics: an error thrown while evaluating the `finally` block REPLACES the
try-block's outcome, so a failing dispose is what the caller observes; otherwise
the callback's own outcome propagates.  If `get` itself fails, neither the
callback nor `dispose` runs. -/
def useRun (cfg : Config) (bres fnRes : Except String Nat) (dres : Except String Unit)
    (b : Option String) (s : St) : St × Option (Except String Nat) :=
  let r1 := getRun cfg bres b s
  match r1.2 with
  | some (Except.ok _) =>
    let r2 := disposeRun cfg dres b r1.1
    (r2.1,
      match r2.2 with
      | some (Except.error e) => some (Except.error e)
      | some (Except.ok _) => some fnRes
      | none => none)
  | some (Except.error e) => (r1.1, some (Except.error e))
  | none => (r1.1, none)

/-! ## Shared helper lemmas -/

theorem aset_of_lookup_eq {κ α : Type} [DecidableEq κ] (k : κ) (v : α)
    (l : List (κ × α)) (h : alookup k l = some v) : aset k v l = l := by
  induction l with
  | nil => simp [alookup] at h
  | cons hd t ih =>
    obtain ⟨k', v'⟩ := hd
    by_cases hk : k = k'
    · subst hk
      simp [alookup] at h
      simp [aset, h]
    · simp [alookup, hk] at h
      simp [aset, hk, ih h]

theorem alookup_adel_sub {κ α : Type} [DecidableEq κ] {k k' : κ} {v : α}
    {l : List (κ × α)} (h : alookup k (adel k' l) = some v) : alookup k l = some v := by
  by_cases hk : k = k'
  · subst hk
    rw [alookup_adel_self] at h
    exact absurd h (by simp)
  · rwa [alookup_adel_ne l hk] at h

/-- A nonempty dependency map forces a working resolver hook; this rewrites the
guard `cfg.hasDeps && !cfg.hookInstalled` away. -/
theorem hook_guard_false {cfg : Config} (hhook : cfg.hasDeps = true → cfg.hookInstalled = true) :
    (cfg.hasDeps && !cfg.hookInstalled) = false := by
  cases h : cfg.hasDeps with
  | false => simp
  | true => simp [hhook h]

/-- A concrete dependency-free configuration with a destroy callback, used by the
concrete counterexample traces. -/
def cfgNoDeps : Config :=
  { singleton := false, disableDisposeDestroy := false, hasDestroy := true
    deps := none, hookInstalled := true }

/-! ## C1: destroy with a failing destroy callback -/

/-- C1, counterexample.  Build scope "s", then destroy it with a callback that
throws "boom": the failure does propagate (the destroy promise rejects), but —
contrary to the claim — NONE of the three maps is cleaned: `instances` still has
the entry, `counts` still holds 1, `destroying` permanently holds the failed
operation. -/
theorem c1_counterexample :
    dFate (exec cfgNoDeps
      [Ev.getStep (some "s"), Ev.settleBuild "s" 7, Ev.destroyStart (some "s"),
       Ev.destroyObserve "s", Ev.destroyCbFail "s" "boom"] initSt) 0 =
        some (Except.error "boom") ∧
    alookup "s" (exec cfgNoDeps
      [Ev.getStep (some "s"), Ev.settleBuild "s" 7, Ev.destroyStart (some "s"),
       Ev.destroyObserve "s", Ev.destroyCbFail "s" "boom"] initSt).instances = some 0 ∧
    alookup "s" (exec cfgNoDeps
      [Ev.getStep (some "s"), Ev.settleBuild "s" 7, Ev.destroyStart (some "s"),
       Ev.destroyObserve "s", Ev.destroyCbFail "s" "boom"] initSt).counts = some 1 ∧
    alookup "s" (exec cfgNoDeps
      [Ev.getStep (some "s"), Ev.settleBuild "s" 7, Ev.destroyStart (some "s"),
       Ev.destroyObserve "s", Ev.destroyCbFail "s" "boom"] initSt).destroying = some 0 := by
  decide

/-- C1 (amended): when the destroy callback raises during an in-flight destroy,
the failure propagates to the caller of `destroy`, but the internal bookkeeping is
NOT cleared: `instances`, `counts` and `destroying` are left exactly as they were
(the scope identifier's entries remain), the `destroying` entry permanently holds
the failed operation, and a subsequent `get` parks on it and then fails with the
same error instead of starting a rebuild. -/
theorem c1_theorem (cfg : Config) (b : Option String) (did v : Nat)
    (e : String) (s : St)
    (hd : alookup (parseBuildId cfg b) s.destroying = some did)
    (hj : alookup did s.dstore = some (DJob.waitCb v)) :
    dFate (destroyCbFailF (parseBuildId cfg b) e s) did = some (Except.error e) ∧
    (destroyCbFailF (parseBuildId cfg b) e s).instances = s.instances ∧
    (destroyCbFailF (parseBuildId cfg b) e s).counts = s.counts ∧
    (destroyCbFailF (parseBuildId cfg b) e s).destroying = s.destroying ∧
    (getStepF cfg b (destroyCbFailF (parseBuildId cfg b) e s)).2 =
      Out.parkedO s.nextGid ∧
    (resumeGetF cfg s.nextGid
      (getStepF cfg b (destroyCbFailF (parseBuildId cfg b) e s)).1).2 =
      some (Out.errD e) ∧
    (resumeGetF cfg s.nextGid
      (getStepF cfg b (destroyCbFailF (parseBuildId cfg b) e s)).1).1.buildCalls =
      s.buildCalls := by
  have hfail : destroyCbFailF (parseBuildId cfg b) e s =
      { s with dstore := aset did (DJob.failedJ e) s.dstore } := by
    simp [destroyCbFailF, hd, hj]
  refine ⟨?_, ?_, ?_, ?_, ?_, ?_, ?_⟩
  · simp [hfail, dFate, alookup_aset_self]
  · simp [hfail]
  · simp [hfail]
  · simp [hfail]
  · simp [hfail, getStepF, hd]
  · simp [hfail, getStepF, hd, resumeGetF, alookup_aset_self]
  · simp [hfail, getStepF, hd, resumeGetF, alookup_aset_self]

/-- C1, witness: the amended theorem applied to the concrete stuck state. -/
theorem c1_witness :
    alookup (parseBuildId cfgNoDeps (some "s"))
      (exec cfgNoDeps
        [Ev.getStep (some "s"), Ev.settleBuild "s" 7, Ev.destroyStart (some "s"),
         Ev.destroyObserve "s"] initSt).destroying = some 0 ∧
    dFate (destroyCbFailF (parseBuildId cfgNoDeps (some "s")) "boom"
      (exec cfgNoDeps
        [Ev.getStep (some "s"), Ev.settleBuild "s" 7, Ev.destroyStart (some "s"),
         Ev.destroyObserve "s"] initSt)) 0 = some (Except.error "boom") :=
  ⟨by decide,
   (c1_theorem cfgNoDeps (some "s") 0 7 "boom"
      (exec cfgNoDeps
        [Ev.getStep (some "s"), Ev.settleBuild "s" 7, Ev.destroyStart (some "s"),
         Ev.destroyObserve "s"] initSt) (by decide) (by decide)).1⟩

/-! ## C2: positive reference count implies a cached instance -/

/-- The invariant claimed by the spec: a scope identifier whose reference count is
positive has an entry in `instances`. -/
def CountInstInv (s : St) : Prop :=
  ∀ bId c, alookup bId s.counts = some c → 0 < c → alookup bId s.instances ≠ none

theorem countInstInv_congr {s s' : St} (hc : s'.counts = s.counts)
    (hi : s'.instances = s.instances) (h : CountInstInv s) : CountInstInv s' := by
  intro bId c hl hpos
  rw [hc] at hl
  rw [hi]
  exact h bId c hl hpos

theorem destroyStartF_frame (bId : String) (s : St) :
    (destroyStartF bId s).1.counts = s.counts ∧
    (destroyStartF bId s).1.instances = s.instances := by
  unfold destroyStartF
  rcases h : alookup bId s.destroying with _ | did
  · rcases h2 : alookup bId s.instances with _ | pid <;> simp [h, h2]
  · simp [h]

theorem destroyStartF_nextPid (bId : String) (s : St) :
    (destroyStartF bId s).1.nextPid = s.nextPid := by
  unfold destroyStartF
  rcases h : alookup bId s.destroying with _ | did
  · rcases h2 : alookup bId s.instances with _ | pid <;> simp [h, h2]
  · simp [h]

theorem countInstInv_mainGet (cfg : Config) (bId : String) (s : St)
    (h : CountInstInv s) : CountInstInv (mainGet cfg bId s).1 := by
  unfold mainGet
  rcases hI : alookup bId s.instances with _ | pid
  · intro b' c hl hpos
    simp only at hl ⊢
    by_cases hb : b' = bId
    · subst hb
      rw [alookup_aset_self]
      simp
    · rw [alookup_aset_ne _ _ hb] at hl
      rw [alookup_aset_ne _ _ hb]
      exact h b' c hl hpos
  · intro b' c hl hpos
    simp only at hl ⊢
    by_cases hb : b' = bId
    · subst hb
      rw [hI]
      simp
    · rw [alookup_aset_ne _ _ hb] at hl
      exact h b' c hl hpos

theorem countInstInv_disposeF (cfg : Config) (b : Option String) (s : St)
    (h : CountInstInv s) : CountInstInv (disposeF cfg b s).1 := by
  have hbody : ∀ s1 : St, s1.counts = aset (parseBuildId cfg b)
      (max ((alookup (parseBuildId cfg b) s.counts).getD 0 - 1) 0) s.counts →
      s1.instances = s.instances → CountInstInv s1 := by
    intro s1 hc hi b' c' hl hpos
    rw [hc] at hl
    rw [hi]
    by_cases hb : b' = parseBuildId cfg b
    · rw [hb, alookup_aset_self] at hl
      have hc' : c' = max ((alookup (parseBuildId cfg b) s.counts).getD 0 - 1) 0 :=
        (Option.some.inj hl).symm
      rcases le_or_lt ((alookup (parseBuildId cfg b) s.counts).getD 0 - 1) 0 with hle | hlt
      · rw [hc', max_eq_right hle] at hpos
        exact absurd hpos (lt_irrefl 0)
      · rcases hC0 : alookup (parseBuildId cfg b) s.counts with _ | c0
        · rw [hC0] at hlt
          norm_num at hlt
        · have hc0 : 0 < c0 := by
            rw [hC0] at hlt
            simp only [Option.getD_some] at hlt
            omega
          rw [hb]
          exact h (parseBuildId cfg b) c0 hC0 hc0
    · rw [alookup_aset_ne _ _ hb] at hl
      exact h b' c' hl hpos
  simp only [disposeF]
  split_ifs with h1 h2
  · exact hbody _ rfl rfl
  · exact hbody _ rfl rfl
  · refine hbody _ ?_ ?_
    · rw [(destroyStartF_frame _ _).1]
    · rw [(destroyStartF_frame _ _).2]

theorem step_preserves_countInstInv (cfg : Config) (ev : Ev) (s : St)
    (hev : ∀ bId e, ev ≠ Ev.failBuild bId e)
    (h : CountInstInv s) : CountInstInv (step cfg ev s).1 := by
  cases ev with
  | getStep b =>
    simp only [step, getStepF]
    rcases hD : alookup (parseBuildId cfg b) s.destroying with _ | did
    · simp only [hD]
      exact countInstInv_mainGet cfg _ s h
    · simp only [hD]
      exact countInstInv_congr rfl rfl h
  | resumeGet gid =>
    simp only [step, resumeGetF]
    rcases hP : alookup gid s.parked with _ | bd
    · simpa [hP] using h
    · obtain ⟨bId, did⟩ := bd
      rcases hJ : alookup did s.dstore with _ | j
      · simpa [hP, hJ] using h
      · cases j with
        | finished =>
          simp only [hP, hJ]
          exact countInstInv_mainGet cfg bId _ (countInstInv_congr rfl rfl h)
        | failedJ e => simpa [hP, hJ] using countInstInv_congr rfl rfl h
        | waitInst pid => simpa [hP, hJ] using h
        | waitCb v => simpa [hP, hJ] using h
        | waitDeps => simpa [hP, hJ] using h
  | settleBuild bId v =>
    simp only [step, settleBuildF]
    rcases hI : alookup bId s.instances with _ | pid
    · simpa [hI] using h
    · rcases hB : alookup pid s.bpromises with _ | bs
      · simpa [hI, hB] using h
      · cases bs with
        | pending =>
          by_cases hg : (cfg.hasDeps && !cfg.hookInstalled) = true
          · simpa [hI, hB, hg] using h
          · simp only [hI, hB]
            rw [if_neg (by simpa using hg)]
            exact countInstInv_congr rfl rfl h
        | fulfilled w => simpa [hI, hB] using h
        | rejected e => simpa [hI, hB] using h
  | failBuild bId e => exact absurd rfl (hev bId e)
  | dispose b =>
    simp only [step]
    exact countInstInv_disposeF cfg b s h
  | destroyStart b =>
    simp only [step]
    obtain ⟨hc', hi'⟩ := destroyStartF_frame (parseBuildId cfg b) s
    exact countInstInv_congr hc' hi' h
  | destroyObserve bId =>
    simp only [step, destroyObserveF]
    rcases hD : alookup bId s.destroying with _ | did
    · simpa [hD] using h
    · rcases hJ : alookup did s.dstore with _ | j
      · simpa [hD, hJ] using h
      · cases j with
        | waitInst pid =>
          rcases hB : alookup pid s.bpromises with _ | bs
          · simpa [hD, hJ, hB] using h
          · cases bs with
            | pending => simpa [hD, hJ, hB] using h
            | fulfilled w =>
              by_cases hcb : cfg.hasDestroy = true
              · simpa [hD, hJ, hB, hcb] using countInstInv_congr rfl rfl h
              · simp only [hD, hJ, hB]
                rw [if_neg hcb]
                exact countInstInv_congr rfl rfl h
            | rejected e => simpa [hD, hJ, hB] using countInstInv_congr rfl rfl h
        | waitCb v => simpa [hD, hJ] using h
        | waitDeps => simpa [hD, hJ] using h
        | finished => simpa [hD, hJ] using h
        | failedJ e => simpa [hD, hJ] using h
  | destroyCbOk bId =>
    simp only [step, destroyCbOkF]
    rcases hD : alookup bId s.destroying with _ | did
    · simpa [hD] using h
    · rcases hJ : alookup did s.dstore with _ | j
      · simpa [hD, hJ] using h
      · cases j <;> simpa [hD, hJ] using countInstInv_congr rfl rfl h
  | destroyCbFail bId e =>
    simp only [step, destroyCbFailF]
    rcases hD : alookup bId s.destroying with _ | did
    · simpa [hD] using h
    · rcases hJ : alookup did s.dstore with _ | j
      · simpa [hD, hJ] using h
      · cases j <;> simpa [hD, hJ] using countInstInv_congr rfl rfl h
  | destroyFinish bId =>
    simp only [step, destroyFinishF]
    rcases hD : alookup bId s.destroying with _ | did
    · simpa [hD] using h
    · rcases hJ : alookup did s.dstore with _ | j
      · simpa [hD, hJ] using h
      · cases j with
        | waitDeps =>
          by_cases hg : (cfg.hasDeps && !cfg.hookInstalled) = true
          · simpa [hD, hJ, hg] using countInstInv_congr rfl rfl h
          · simp only [hD, hJ]
            rw [if_neg (by simpa using hg)]
            intro b' c hl hpos
            simp only at hl ⊢
            by_cases hb : b' = bId
            · subst hb
              rw [alookup_adel_self] at hl
              exact absurd hl (by simp)
            · rw [alookup_adel_ne _ hb] at hl
              rw [alookup_adel_ne _ hb]
              exact h b' c hl hpos
        | waitInst pid => simpa [hD, hJ] using h
        | waitCb v => simpa [hD, hJ] using h
        | finished => simpa [hD, hJ] using h
        | failedJ e2 => simpa [hD, hJ] using h

theorem exec_preserves_countInstInv (cfg : Config) (t : List Ev) (s : St)
    (hnf : ∀ bId e, Ev.failBuild bId e ∉ t)
    (h : CountInstInv s) : CountInstInv (exec cfg t s) := by
  induction t generalizing s with
  | nil => exact h
  | cons ev t ih =>
    apply ih
    · intro bId e hm
      exact hnf bId e (List.mem_cons_of_mem _ hm)
    · apply step_preserves_countInstInv cfg ev s ?_ h
      intro bId e hev
      exact hnf bId e (hev ▸ List.mem_cons_self _ _)

/-- C2, counterexample.  A single `get` whose build fails is a sequence of
`get`/`dispose`/`destroy`/`use` calls after which the reference count for the
scope identifier is 1 (positive) while `instances` has no entry: `get`
increments the count before awaiting the build (line 631), and the failure
handler removes only the `instances` entry (line 624). -/
theorem c2_counterexample :
    alookup "s" (exec cfgNoDeps
      [Ev.getStep (some "s"), Ev.failBuild "s" "err"] initSt).counts = some 1 ∧
    alookup "s" (exec cfgNoDeps
      [Ev.getStep (some "s"), Ev.failBuild "s" "err"] initSt).instances = none := by
  decide

/-- C2 (amended): in every state reachable by `get`, `dispose`, `destroy` and
`use` segments in which no build has failed, a scope identifier with a positive
reference count has an entry in `instances`. -/
theorem c2_theorem (cfg : Config) (t : List Ev)
    (hnf : ∀ bId e, Ev.failBuild bId e ∉ t) :
    CountInstInv (exec cfg t initSt) := by
  apply exec_preserves_countInstInv cfg t initSt hnf
  intro bId c hl
  simp [initSt, alookup] at hl

/-- C2, witness: the amended invariant at a concrete failure-free trace. -/
theorem c2_witness :
    CountInstInv (exec cfgNoDeps
      [Ev.getStep (some "w"), Ev.settleBuild "w" 3, Ev.getStep (some "w"),
       Ev.dispose (some "w")] initSt) :=
  c2_theorem cfgNoDeps _ (by
    intro bId e hm
    simp [List.mem_cons] at hm)

/-! ## C3: use — dispose always runs, but a dispose failure masks the result -/

/-- C3, counterexample.  A `use` whose callback fails with "fnerr" while the
triggered destroy callback fails with "boom": the caller observes "boom" (the
dispose-side error), not the callback's original failure "fnerr" — JavaScript
`finally` semantics replace the try-block's outcome. -/
theorem c3_counterexample :
    (useRun cfgNoDeps (Except.ok 1) (Except.error "fnerr") (Except.error "boom")
      (some "s") initSt).2 = some (Except.error "boom") ∧
    some (Except.error "boom") ≠ some (Except.error "fnerr" : Except String Nat) := by
  constructor
  · decide
  · decide

/-- C3 (amended): for a fresh scope identifier, `use` invokes `dispose` exactly
once after the callback settles, whether the callback returns or raises; the
caller then observes the callback's own outcome when the dispose succeeds, but a
failure raised by the dispose step (such as a destroy-callback failure) replaces
the callback's outcome. -/
theorem c3_theorem (cfg : Config) (b : Option String) (v : Nat)
    (fnRes : Except String Nat) (dres : Except String Unit) (s : St)
    (hI : alookup (parseBuildId cfg b) s.instances = none)
    (hD : alookup (parseBuildId cfg b) s.destroying = none)
    (hC : alookup (parseBuildId cfg b) s.counts = none)
    (hhook : cfg.hasDeps = true → cfg.hookInstalled = true)
    (hdd : cfg.disableDisposeDestroy = false)
    (hcb : cfg.hasDestroy = true) :
    (useRun cfg (Except.ok v) fnRes dres b s).1.disposeCalls = s.disposeCalls + 1 ∧
    (useRun cfg (Except.ok v) fnRes dres b s).2 =
      some (match dres with
            | Except.ok _ => fnRes
            | Except.error e => Except.error e) := by
  have hguard := hook_guard_false hhook
  have hget : getRun cfg (Except.ok v) b s =
      ({ s with
          instances := aset (parseBuildId cfg b) s.nextPid s.instances
          bpromises := aset s.nextPid (BState.fulfilled v)
            (aset s.nextPid BState.pending s.bpromises)
          counts := aset (parseBuildId cfg b) 1 s.counts
          nextPid := s.nextPid + 1
          buildCalls := s.buildCalls + 1
          resolverCalls := s.resolverCalls + (if cfg.hasDeps then 1 else 0) },
        some (Except.ok v)) := by
    simp [getRun, getStepF, mainGet, hD, hI, hC, step, settleBuildF,
      alookup_aset_self, hguard, getResult]
  rw [useRun, hget]
  simp only []
  set s1 : St :=
    { s with
        instances := aset (parseBuildId cfg b) s.nextPid s.instances
        bpromises := aset s.nextPid (BState.fulfilled v)
          (aset s.nextPid BState.pending s.bpromises)
        counts := aset (parseBuildId cfg b) 1 s.counts
        nextPid := s.nextPid + 1
        buildCalls := s.buildCalls + 1
        resolverCalls := s.resolverCalls + (if cfg.hasDeps then 1 else 0) } with hs1
  have hdisp1 : disposeF cfg b s1 =
      ({ s1 with
          counts := aset (parseBuildId cfg b) 0 s1.counts
          disposeCalls := s1.disposeCalls + 1
          dstore := aset s1.nextDid (DJob.waitInst s.nextPid) s1.dstore
          destroying := aset (parseBuildId cfg b) s1.nextDid s1.destroying
          nextDid := s1.nextDid + 1 },
        Out.awaitD s1.nextDid) := by
    simp [disposeF, hs1, alookup_aset_self, destroyStartF, hD, hC, hdd]
  cases dres with
  | ok u =>
    rw [disposeRun, hdisp1]
    simp only [exec, step]
    rw [destroyObserveF]
    simp only [alookup_aset_self, hcb, if_true]
    rw [destroyCbOkF]
    simp only [alookup_aset_self]
    rw [destroyFinishF]
    simp only [alookup_aset_self, hguard, Bool.false_eq_true, if_false]
    simp [dFate, alookup_aset_self, hs1]
  | error e =>
    rw [disposeRun, hdisp1]
    simp only [exec, step]
    rw [destroyObserveF]
    simp only [alookup_aset_self, hcb, if_true]
    rw [destroyCbFailF]
    simp only [alookup_aset_self]
    rw [destroyFinishF]
    simp only [alookup_aset_self]
    simp [dFate, alookup_aset_self, hs1]

/-- C3, witness: the amended theorem at a concrete input (callback fails,
destroy callback succeeds: the caller sees the callback's failure). -/
theorem c3_witness :
    (useRun cfgNoDeps (Except.ok 5) (Except.error "fnerr") (Except.ok ())
      (some "w") initSt).1.disposeCalls = initSt.disposeCalls + 1 ∧
    (useRun cfgNoDeps (Except.ok 5) (Except.error "fnerr") (Except.ok ())
      (some "w") initSt).2 = some (Except.error "fnerr") :=
  c3_theorem cfgNoDeps (some "w") 5 (Except.error "fnerr") (Except.ok ()) initSt
    (by decide) (by decide) (by decide) (by decide) rfl rfl

/-! ## C4: dispose/destroy on an untouched scope identifier -/

/-- C4, counterexample.  Disposing a never-used scope identifier completes
without error, but the internal state is NOT left unchanged: `counts` gains a 0
entry and `destroying` gains a stale settled entry (the early return at line 683
skips the `destroying.delete` at line 700).  Consequently a later
get-then-dispose-to-zero cycle on "s" never invokes the destroy callback
(`destroyCbCalls` stays 0 and the instance survives), whereas the same cycle on a
never-used scope identifier invokes it exactly once. -/
theorem c4_counterexample :
    alookup "s" (exec cfgNoDeps [Ev.dispose (some "s")] initSt).destroying ≠ none ∧
    alookup "s" (exec cfgNoDeps [Ev.dispose (some "s")] initSt).counts = some 0 ∧
    (exec cfgNoDeps
      [Ev.dispose (some "s"), Ev.getStep (some "s"), Ev.resumeGet 0,
       Ev.settleBuild "s" 7, Ev.dispose (some "s"), Ev.destroyObserve "s",
       Ev.destroyCbOk "s", Ev.destroyFinish "s"] initSt).destroyCbCalls = 0 ∧
    alookup "s" (exec cfgNoDeps
      [Ev.dispose (some "s"), Ev.getStep (some "s"), Ev.resumeGet 0,
       Ev.settleBuild "s" 7, Ev.dispose (some "s"), Ev.destroyObserve "s",
       Ev.destroyCbOk "s", Ev.destroyFinish "s"] initSt).instances = some 0 ∧
    (exec cfgNoDeps
      [Ev.getStep (some "s"), Ev.settleBuild "s" 7, Ev.dispose (some "s"),
       Ev.destroyObserve "s", Ev.destroyCbOk "s", Ev.destroyFinish "s"]
      initSt).destroyCbCalls = 1 := by
  refine ⟨by decide, by decide, by decide, by decide, by decide⟩

/-- C4 (amended): for a scope identifier with no cached instance, no reference
count and no destroy entry, `dispose` and `destroy` complete without error and do
not invoke the destroy callback; but they are not no-ops on the internal state:
`dispose` records a 0 reference count and (via the destroy it triggers) a settled
`destroying` entry, `destroy` records the settled `destroying` entry, and that
stale entry persists, so a later get-then-dispose-to-zero cycle on the same scope
identifier does NOT invoke the destroy callback and does not remove the new
instance — unlike the same cycle on a never-used scope identifier. -/
theorem c4_theorem (cfg : Config) (b : Option String) (v : Nat) (s : St)
    (hI : alookup (parseBuildId cfg b) s.instances = none)
    (hD : alookup (parseBuildId cfg b) s.destroying = none)
    (hC : alookup (parseBuildId cfg b) s.counts = none)
    (hhook : cfg.hasDeps = true → cfg.hookInstalled = true)
    (hdd : cfg.disableDisposeDestroy = false)
    (hcb : cfg.hasDestroy = true) :
    (disposeF cfg b s).2 = Out.awaitD s.nextDid ∧
    dFate (disposeF cfg b s).1 s.nextDid = some (Except.ok ()) ∧
    (disposeF cfg b s).1.destroyCbCalls = s.destroyCbCalls ∧
    alookup (parseBuildId cfg b) (disposeF cfg b s).1.counts = some 0 ∧
    alookup (parseBuildId cfg b) (disposeF cfg b s).1.destroying = some s.nextDid ∧
    (destroyStartF (parseBuildId cfg b) s).2 = Out.awaitD s.nextDid ∧
    dFate (destroyStartF (parseBuildId cfg b) s).1 s.nextDid = some (Except.ok ()) ∧
    (destroyStartF (parseBuildId cfg b) s).1.destroyCbCalls = s.destroyCbCalls ∧
    alookup (parseBuildId cfg b) (destroyStartF (parseBuildId cfg b) s).1.destroying =
      some s.nextDid ∧
    (exec cfg
      [Ev.getStep b, Ev.resumeGet s.nextGid, Ev.settleBuild (parseBuildId cfg b) v,
       Ev.dispose b, Ev.destroyObserve (parseBuildId cfg b),
       Ev.destroyCbOk (parseBuildId cfg b), Ev.destroyFinish (parseBuildId cfg b)]
      (disposeF cfg b s).1).destroyCbCalls = s.destroyCbCalls ∧
    alookup (parseBuildId cfg b) (exec cfg
      [Ev.getStep b, Ev.resumeGet s.nextGid, Ev.settleBuild (parseBuildId cfg b) v,
       Ev.dispose b, Ev.destroyObserve (parseBuildId cfg b),
       Ev.destroyCbOk (parseBuildId cfg b), Ev.destroyFinish (parseBuildId cfg b)]
      (disposeF cfg b s).1).instances = some s.nextPid := by
  have hguard := hook_guard_false hhook
  have hmax : max ((Option.getD (none : Option Int) 0) - 1) 0 = 0 := by norm_num
  have hdisp : disposeF cfg b s =
      ({ s with
          counts := aset (parseBuildId cfg b) 0 s.counts
          disposeCalls := s.disposeCalls + 1
          dstore := aset s.nextDid DJob.finished s.dstore
          destroying := aset (parseBuildId cfg b) s.nextDid s.destroying
          nextDid := s.nextDid + 1 },
        Out.awaitD s.nextDid) := by
    simp [disposeF, hC, hdd, destroyStartF, hD, hI]
  have hstart : destroyStartF (parseBuildId cfg b) s =
      ({ s with
          dstore := aset s.nextDid DJob.finished s.dstore
          destroying := aset (parseBuildId cfg b) s.nextDid s.destroying
          nextDid := s.nextDid + 1 },
        Out.awaitD s.nextDid) := by
    simp [destroyStartF, hD, hI]
  refine ⟨?_, ?_, ?_, ?_, ?_, ?_, ?_, ?_, ?_, ?_, ?_⟩
  · rw [hdisp]
  · rw [hdisp]
    simp [dFate, alookup_aset_self]
  · rw [hdisp]
  · rw [hdisp]
    simp [alookup_aset_self]
  · rw [hdisp]
    simp [alookup_aset_self]
  · rw [hstart]
  · rw [hstart]
    simp [dFate, alookup_aset_self]
  · rw [hstart]
  · rw [hstart]
    simp [alookup_aset_self]
  · rw [hdisp]
    simp only [exec, step, getStepF, resumeGetF, alookup_aset_self]
    simp only [mainGet, alookup_adel_self]
    simp [hI, hC, hdd, hcb, settleBuildF, alookup_aset_self, hguard, disposeF,
      destroyStartF, destroyObserveF, destroyCbOkF, destroyFinishF]
  · rw [hdisp]
    simp only [exec, step, getStepF, resumeGetF, alookup_aset_self]
    simp only [mainGet, alookup_adel_self]
    simp [hI, hC, hdd, hcb, settleBuildF, alookup_aset_self, hguard, disposeF,
      destroyStartF, destroyObserveF, destroyCbOkF, destroyFinishF]

/-- C4, witness: the amended theorem applied to the fresh Provider state. -/
theorem c4_witness :
    (disposeF cfgNoDeps (some "w") initSt).2 = Out.awaitD initSt.nextDid ∧
    dFate (disposeF cfgNoDeps (some "w") initSt).1 initSt.nextDid =
      some (Except.ok ()) ∧
    (disposeF cfgNoDeps (some "w") initSt).1.destroyCbCalls = initSt.destroyCbCalls :=
  ⟨(c4_theorem cfgNoDeps (some "w") 7 initSt (by decide) (by decide) (by decide)
      (by decide) rfl rfl).1,
   (c4_theorem cfgNoDeps (some "w") 7 initSt (by decide) (by decide) (by decide)
      (by decide) rfl rfl).2.1,
   (c4_theorem cfgNoDeps (some "w") 7 initSt (by decide) (by decide) (by decide)
      (by decide) rfl rfl).2.2.1⟩

/-! ## C5: build deduplication -/

/-- A `get` against a cached entry (no destroy in flight): only the reference
count changes, and the caller awaits the shared cached promise. -/
theorem getStep_cached (cfg : Config) (b : Option String) (pid : Nat) (s : St)
    (hD : alookup (parseBuildId cfg b) s.destroying = none)
    (hI : alookup (parseBuildId cfg b) s.instances = some pid) :
    getStepF cfg b s =
      ({ s with counts := (aset (parseBuildId cfg b)
          ((alookup (parseBuildId cfg b) s.counts).getD 0 + 1) s.counts) },
       Out.waiting pid) := by
  simp [getStepF, mainGet, hD, hI]

theorem traceOuts_append (cfg : Config) (t1 t2 : List Ev) (s : St) :
    traceOuts cfg (t1 ++ t2) s =
      traceOuts cfg t1 s ++ traceOuts cfg t2 (exec cfg t1 s) := by
  induction t1 generalizing s with
  | nil => simp [traceOuts, exec]
  | cons ev t ih => simp [traceOuts, exec, ih]

theorem exec_append (cfg : Config) (t1 t2 : List Ev) (s : St) :
    exec cfg (t1 ++ t2) s = exec cfg t2 (exec cfg t1 s) := by
  induction t1 generalizing s with
  | nil => simp [exec]
  | cons ev t ih => simp [exec, ih]

/-- Repeated `get` calls against a cached entry: the cache, promise stores and
build counter are untouched, and every call awaits the same promise `pid`. -/
theorem exec_getRep (cfg : Config) (b : Option String) (pid : Nat) (k : Nat) (s : St)
    (hD : alookup (parseBuildId cfg b) s.destroying = none)
    (hI : alookup (parseBuildId cfg b) s.instances = some pid) :
    (exec cfg (List.replicate k (Ev.getStep b)) s).instances = s.instances ∧
    (exec cfg (List.replicate k (Ev.getStep b)) s).destroying = s.destroying ∧
    (exec cfg (List.replicate k (Ev.getStep b)) s).bpromises = s.bpromises ∧
    (exec cfg (List.replicate k (Ev.getStep b)) s).buildCalls = s.buildCalls ∧
    (exec cfg (List.replicate k (Ev.getStep b)) s).destroyCbCalls = s.destroyCbCalls ∧
    (exec cfg (List.replicate k (Ev.getStep b)) s).nextPid = s.nextPid ∧
    (∀ o ∈ traceOuts cfg (List.replicate k (Ev.getStep b)) s,
      o = some (Out.waiting pid)) := by
  induction k generalizing s with
  | zero => simp [exec, traceOuts]
  | succ k ih =>
    rw [List.replicate_succ]
    have hstep := getStep_cached cfg b pid s hD hI
    have h1 : (step cfg (Ev.getStep b) s).1 =
        { s with counts := (aset (parseBuildId cfg b)
            ((alookup (parseBuildId cfg b) s.counts).getD 0 + 1) s.counts) } := by
      simp [step, hstep]
    have h2 : (step cfg (Ev.getStep b) s).2 = some (Out.waiting pid) := by
      simp [step, hstep]
    obtain ⟨ih1, ih2, ih3, ih4, ih5, ih6, ih7⟩ := ih
      ({ s with counts := (aset (parseBuildId cfg b)
          ((alookup (parseBuildId cfg b) s.counts).getD 0 + 1) s.counts) }) hD hI
    refine ⟨?_, ?_, ?_, ?_, ?_, ?_, ?_⟩
    · simpa [exec, h1] using ih1
    · simpa [exec, h1] using ih2
    · simpa [exec, h1] using ih3
    · simpa [exec, h1] using ih4
    · simpa [exec, h1] using ih5
    · simpa [exec, h1] using ih6
    · intro o ho
      simp only [traceOuts, h1, h2] at ho
      rcases List.mem_cons.mp ho with h | h
      · exact h
      · exact ih7 o h

/-- The very first `get` on a fresh scope identifier, from the initial state. -/
theorem exec_firstGet (cfg : Config) (b : Option String) :
    step cfg (Ev.getStep b) initSt =
      ({ instances := [(parseBuildId cfg b, 0)]
         counts := [(parseBuildId cfg b, 1)]
         destroying := []
         bpromises := [(0, BState.pending)]
         dstore := [], parked := [], nextPid := 1, nextDid := 0, nextGid := 0
         buildCalls := 1, destroyCbCalls := 0
         resolverCalls := if cfg.hasDeps then 1 else 0
         disposeCalls := 0 },
       some (Out.waiting 0)) := by
  simp [step, getStepF, mainGet, initSt, alookup, aset]

/-- C5: for any numbers of `get` calls issued before (`k1 ≥ 1`, concurrently
sharing the in-flight promise) and after (`k2`, reusing the settled cache) the
factory settles, with no intervening destroy, the factory is invoked exactly
once, every call awaits the same promise 0, and that promise resolves to the
single built instance `v` for all of them. -/
theorem c5_theorem (cfg : Config) (b : Option String) (v : Nat) (k1 k2 : Nat)
    (hk : 1 ≤ k1) (hhook : cfg.hasDeps = true → cfg.hookInstalled = true) :
    (exec cfg (List.replicate k1 (Ev.getStep b) ++
      (Ev.settleBuild (parseBuildId cfg b) v :: List.replicate k2 (Ev.getStep b)))
      initSt).buildCalls = 1 ∧
    (∀ o ∈ traceOuts cfg (List.replicate k1 (Ev.getStep b) ++
      (Ev.settleBuild (parseBuildId cfg b) v :: List.replicate k2 (Ev.getStep b)))
      initSt, ∀ x, o = some x → x = Out.waiting 0) ∧
    getResult (exec cfg (List.replicate k1 (Ev.getStep b) ++
      (Ev.settleBuild (parseBuildId cfg b) v :: List.replicate k2 (Ev.getStep b)))
      initSt) (Out.waiting 0) = some (Except.ok v) := by
  obtain ⟨k0, rfl⟩ : ∃ k0, k1 = k0 + 1 := ⟨k1 - 1, by omega⟩
  have hguard := hook_guard_false hhook
  set s1 : St :=
    { instances := [(parseBuildId cfg b, 0)]
      counts := [(parseBuildId cfg b, 1)]
      destroying := []
      bpromises := [(0, BState.pending)]
      dstore := [], parked := [], nextPid := 1, nextDid := 0, nextGid := 0
      buildCalls := 1, destroyCbCalls := 0
      resolverCalls := if cfg.hasDeps then 1 else 0
      disposeCalls := 0 } with hs1
  have hD1 : alookup (parseBuildId cfg b) s1.destroying = none := by
    simp [hs1, alookup]
  have hI1 : alookup (parseBuildId cfg b) s1.instances = some 0 := by
    simp [hs1, alookup]
  obtain ⟨g1, g2, g3, g4, g5, g6, g7⟩ := exec_getRep cfg b 0 k0 s1 hD1 hI1
  set s2 : St := exec cfg (List.replicate k0 (Ev.getStep b)) s1 with hs2
  have hI2 : alookup (parseBuildId cfg b) s2.instances = some 0 := by
    rw [g1]
    exact hI1
  have hB2 : alookup 0 s2.bpromises = some BState.pending := by
    rw [g3]
    simp [hs1, alookup]
  have hsettle : settleBuildF cfg (parseBuildId cfg b) v s2 =
      { s2 with bpromises := aset 0 (BState.fulfilled v) s2.bpromises } := by
    simp [settleBuildF, hI2, hB2, hguard]
  set s3 : St := { s2 with bpromises := aset 0 (BState.fulfilled v) s2.bpromises }
    with hs3
  have hD3 : alookup (parseBuildId cfg b) s3.destroying = none := by
    simp only [hs3]
    rw [g2]
    exact hD1
  have hI3 : alookup (parseBuildId cfg b) s3.instances = some 0 := by
    simp only [hs3]
    exact hI2
  obtain ⟨f1, f2, f3, f4, f5, f6, f7⟩ := exec_getRep cfg b 0 k2 s3 hD3 hI3
  have hrew : exec cfg (List.replicate (k0 + 1) (Ev.getStep b) ++
      (Ev.settleBuild (parseBuildId cfg b) v :: List.replicate k2 (Ev.getStep b)))
      initSt = exec cfg (List.replicate k2 (Ev.getStep b)) s3 := by
    rw [exec_append]
    have : exec cfg (List.replicate (k0 + 1) (Ev.getStep b)) initSt = s2 := by
      rw [List.replicate_succ, exec, exec_firstGet]
    rw [this]
    simp [exec, step, hsettle, hs3]
  constructor
  · rw [hrew, f4]
    simp only [hs3]
    rw [g4]
  constructor
  · intro o ho x hx
    rw [List.replicate_succ] at ho
    rw [show (Ev.getStep b :: List.replicate k0 (Ev.getStep b)) ++
        (Ev.settleBuild (parseBuildId cfg b) v :: List.replicate k2 (Ev.getStep b)) =
        Ev.getStep b :: (List.replicate k0 (Ev.getStep b) ++
        (Ev.settleBuild (parseBuildId cfg b) v :: List.replicate k2 (Ev.getStep b)))
      from rfl] at ho
    simp only [traceOuts] at ho
    rcases List.mem_cons.mp ho with h | h
    · rw [exec_firstGet] at h
      simp only at h
      rw [hx] at h
      exact Option.some.inj h
    · have hfirst : (step cfg (Ev.getStep b) initSt).1 = s1 := by
        rw [exec_firstGet]
      rw [hfirst, traceOuts_append] at h
      rcases List.mem_append.mp h with h | h
      · rw [hx] at h
        exact Option.some.inj (g7 _ h)
      · rw [← hs2] at h
        simp only [traceOuts] at h
        rcases List.mem_cons.mp h with h | h
        · rw [hx] at h
          have : (step cfg (Ev.settleBuild (parseBuildId cfg b) v) s2).2 = none := by
            simp [step]
          rw [this] at h
          exact absurd h.symm (by simp)
        · have hmid : (step cfg (Ev.settleBuild (parseBuildId cfg b) v) s2).1 = s3 := by
            simp [step, hsettle, hs3]
          rw [hmid] at h
          rw [hx] at h
          exact Option.some.inj (f7 _ h)
  · rw [hrew]
    simp only [getResult]
    rw [f3]
    simp only [hs3]
    rw [alookup_aset_self]

/-- C5, witness: three concurrent gets and one later get share build 0 and all
resolve to the same instance. -/
theorem c5_witness :
    (exec cfgNoDeps (List.replicate 3 (Ev.getStep (some "w")) ++
      (Ev.settleBuild (parseBuildId cfgNoDeps (some "w")) 9 ::
        List.replicate 1 (Ev.getStep (some "w")))) initSt).buildCalls = 1 ∧
    getResult (exec cfgNoDeps (List.replicate 3 (Ev.getStep (some "w")) ++
      (Ev.settleBuild (parseBuildId cfgNoDeps (some "w")) 9 ::
        List.replicate 1 (Ev.getStep (some "w")))) initSt) (Out.waiting 0) =
      some (Except.ok 9) :=
  ⟨(c5_theorem cfgNoDeps (some "w") 9 3 1 (by omega) (by decide)).1,
   (c5_theorem cfgNoDeps (some "w") 9 3 1 (by omega) (by decide)).2.2⟩

/-! ## C8: build failure — propagation, cache clearing, clean retry -/

/-- C8: when the factory for a scope identifier raises, the rejection reaches
every one of the `n` concurrent waiters of that build (they all await promise 0,
which settles rejected), the `instances` entry for that scope identifier is
removed, and a subsequent `get` starts a fresh build (a second factory
invocation) that returns the new result when it succeeds. -/
theorem c8_theorem (cfg : Config) (b : Option String) (e : String) (v : Nat)
    (n : Nat) (hn : 1 ≤ n) (hhook : cfg.hasDeps = true → cfg.hookInstalled = true) :
    (∀ o ∈ traceOuts cfg (List.replicate n (Ev.getStep b)) initSt,
      o = some (Out.waiting 0)) ∧
    getResult (exec cfg (List.replicate n (Ev.getStep b) ++
        [Ev.failBuild (parseBuildId cfg b) e]) initSt) (Out.waiting 0) =
      some (Except.error e) ∧
    alookup (parseBuildId cfg b) (exec cfg (List.replicate n (Ev.getStep b) ++
        [Ev.failBuild (parseBuildId cfg b) e]) initSt).instances = none ∧
    (exec cfg (List.replicate n (Ev.getStep b) ++
        [Ev.failBuild (parseBuildId cfg b) e]) initSt).buildCalls = 1 ∧
    (step cfg (Ev.getStep b) (exec cfg (List.replicate n (Ev.getStep b) ++
        [Ev.failBuild (parseBuildId cfg b) e]) initSt)).2 =
      some (Out.waiting 1) ∧
    (exec cfg (List.replicate n (Ev.getStep b) ++
        [Ev.failBuild (parseBuildId cfg b) e, Ev.getStep b,
         Ev.settleBuild (parseBuildId cfg b) v]) initSt).buildCalls = 2 ∧
    getResult (exec cfg (List.replicate n (Ev.getStep b) ++
        [Ev.failBuild (parseBuildId cfg b) e, Ev.getStep b,
         Ev.settleBuild (parseBuildId cfg b) v]) initSt) (Out.waiting 1) =
      some (Except.ok v) := by
  obtain ⟨k0, rfl⟩ : ∃ k0, n = k0 + 1 := ⟨n - 1, by omega⟩
  have hguard := hook_guard_false hhook
  set s1 : St :=
    { instances := [(parseBuildId cfg b, 0)]
      counts := [(parseBuildId cfg b, 1)]
      destroying := []
      bpromises := [(0, BState.pending)]
      dstore := [], parked := [], nextPid := 1, nextDid := 0, nextGid := 0
      buildCalls := 1, destroyCbCalls := 0
      resolverCalls := if cfg.hasDeps then 1 else 0
      disposeCalls := 0 } with hs1
  have hD1 : alookup (parseBuildId cfg b) s1.destroying = none := by
    simp [hs1, alookup]
  have hI1 : alookup (parseBuildId cfg b) s1.instances = some 0 := by
    simp [hs1, alookup]
  obtain ⟨g1, g2, g3, g4, g5, g6, g7⟩ := exec_getRep cfg b 0 k0 s1 hD1 hI1
  set s2 : St := exec cfg (List.replicate k0 (Ev.getStep b)) s1 with hs2
  have hexecGets : exec cfg (List.replicate (k0 + 1) (Ev.getStep b)) initSt = s2 := by
    rw [List.replicate_succ, exec, exec_firstGet]
  have hI2 : alookup (parseBuildId cfg b) s2.instances = some 0 := by
    rw [g1]
    exact hI1
  have hB2 : alookup 0 s2.bpromises = some BState.pending := by
    rw [g3]
    simp [hs1, alookup]
  have hfail : failBuildF (parseBuildId cfg b) e s2 =
      { s2 with bpromises := aset 0 (BState.rejected e) s2.bpromises
                instances := adel (parseBuildId cfg b) s2.instances } := by
    simp [failBuildF, hI2, hB2]
  have hexecF : exec cfg (List.replicate (k0 + 1) (Ev.getStep b) ++
      [Ev.failBuild (parseBuildId cfg b) e]) initSt =
      { s2 with bpromises := aset 0 (BState.rejected e) s2.bpromises
                instances := adel (parseBuildId cfg b) s2.instances } := by
    rw [exec_append, hexecGets]
    simp [exec, step, hfail]
  set sF : St :=
    { s2 with bpromises := aset 0 (BState.rejected e) s2.bpromises
              instances := adel (parseBuildId cfg b) s2.instances } with hsF
  have hDF : alookup (parseBuildId cfg b) sF.destroying = none := by
    simp only [hsF]
    rw [g2]
    exact hD1
  have hIF : alookup (parseBuildId cfg b) sF.instances = none := by
    simp only [hsF]
    exact alookup_adel_self _ _
  have hnext : sF.nextPid = 1 := by
    simp only [hsF]
    rw [g6]
  have hgetF : getStepF cfg b sF =
      ({ sF with
          instances := aset (parseBuildId cfg b) sF.nextPid sF.instances
          bpromises := aset sF.nextPid BState.pending sF.bpromises
          counts := (aset (parseBuildId cfg b)
            ((alookup (parseBuildId cfg b) sF.counts).getD 0 + 1) sF.counts)
          nextPid := sF.nextPid + 1
          buildCalls := sF.buildCalls + 1
          resolverCalls := sF.resolverCalls + (if cfg.hasDeps then 1 else 0) },
        Out.waiting sF.nextPid) := by
    simp [getStepF, mainGet, hDF, hIF]
  refine ⟨?_, ?_, ?_, ?_, ?_, ?_, ?_⟩
  · intro o ho
    rw [List.replicate_succ] at ho
    simp only [traceOuts] at ho
    rcases List.mem_cons.mp ho with h | h
    · rw [exec_firstGet] at h
      simpa using h
    · have hfirst : (step cfg (Ev.getStep b) initSt).1 = s1 := by
        rw [exec_firstGet]
      rw [hfirst] at h
      exact g7 o h
  · rw [hexecF]
    simp only [getResult, hsF]
    rw [alookup_aset_self]
  · rw [hexecF]
    exact hIF
  · rw [hexecF]
    simp only [hsF]
    rw [g4]
  · rw [hexecF]
    simp [step, hgetF, hnext]
    rw [g6]
  · have : exec cfg (List.replicate (k0 + 1) (Ev.getStep b) ++
        [Ev.failBuild (parseBuildId cfg b) e, Ev.getStep b,
         Ev.settleBuild (parseBuildId cfg b) v]) initSt =
        exec cfg [Ev.getStep b, Ev.settleBuild (parseBuildId cfg b) v] sF := by
      rw [show (List.replicate (k0 + 1) (Ev.getStep b) ++
        [Ev.failBuild (parseBuildId cfg b) e, Ev.getStep b,
         Ev.settleBuild (parseBuildId cfg b) v]) =
        (List.replicate (k0 + 1) (Ev.getStep b) ++
         [Ev.failBuild (parseBuildId cfg b) e]) ++
        [Ev.getStep b, Ev.settleBuild (parseBuildId cfg b) v] by simp]
      rw [exec_append, hexecF, hsF]
    rw [this]
    simp only [exec, step, hgetF]
    rw [settleBuildF]
    simp only [alookup_aset_self, hguard, Bool.false_eq_true, if_false]
    have hbc : s2.buildCalls = 1 := by rw [g4]
    omega
  · have : exec cfg (List.replicate (k0 + 1) (Ev.getStep b) ++
        [Ev.failBuild (parseBuildId cfg b) e, Ev.getStep b,
         Ev.settleBuild (parseBuildId cfg b) v]) initSt =
        exec cfg [Ev.getStep b, Ev.settleBuild (parseBuildId cfg b) v] sF := by
      rw [show (List.replicate (k0 + 1) (Ev.getStep b) ++
        [Ev.failBuild (parseBuildId cfg b) e, Ev.getStep b,
         Ev.settleBuild (parseBuildId cfg b) v]) =
        (List.replicate (k0 + 1) (Ev.getStep b) ++
         [Ev.failBuild (parseBuildId cfg b) e]) ++
        [Ev.getStep b, Ev.settleBuild (parseBuildId cfg b) v] by simp]
      rw [exec_append, hexecF, hsF]
    rw [this]
    simp only [exec, step, hgetF, hnext]
    rw [settleBuildF]
    simp only [alookup_aset_self, hguard, Bool.false_eq_true, if_false]
    simp only [getResult]
    have hnext2 : s2.nextPid = 1 := by rw [g6]
    simp only [hnext2, alookup_aset_self]

/-- C8, witness: two concurrent gets, factory fails, retry succeeds. -/
theorem c8_witness :
    getResult (exec cfgNoDeps (List.replicate 2 (Ev.getStep (some "w")) ++
        [Ev.failBuild (parseBuildId cfgNoDeps (some "w")) "err"]) initSt)
      (Out.waiting 0) = some (Except.error "err") ∧
    (exec cfgNoDeps (List.replicate 2 (Ev.getStep (some "w")) ++
        [Ev.failBuild (parseBuildId cfgNoDeps (some "w")) "err", Ev.getStep (some "w"),
         Ev.settleBuild (parseBuildId cfgNoDeps (some "w")) 4]) initSt).buildCalls = 2 :=
  ⟨(c8_theorem cfgNoDeps (some "w") "err" 4 2 (by omega) (by decide)).2.1,
   (c8_theorem cfgNoDeps (some "w") "err" 4 2 (by omega) (by decide)).2.2.2.2.2.1⟩

/-! ## C7: reference counting -/

/-- Counts under repeated cached `get` calls: each adds one. -/
theorem exec_getRep_counts (cfg : Config) (b : Option String) (pid : Nat) (c : Int)
    (k : Nat) (s : St)
    (hD : alookup (parseBuildId cfg b) s.destroying = none)
    (hI : alookup (parseBuildId cfg b) s.instances = some pid)
    (hC : alookup (parseBuildId cfg b) s.counts = some c) :
    alookup (parseBuildId cfg b)
      (exec cfg (List.replicate k (Ev.getStep b)) s).counts = some (c + k) := by
  induction k generalizing s c with
  | zero => simpa [exec] using hC
  | succ k ih =>
    rw [List.replicate_succ, exec]
    have hstep := getStep_cached cfg b pid s hD hI
    have h1 : (step cfg (Ev.getStep b) s).1 =
        { s with counts := (aset (parseBuildId cfg b)
            ((alookup (parseBuildId cfg b) s.counts).getD 0 + 1) s.counts) } := by
      simp [step, hstep]
    rw [h1]
    have hC1 : alookup (parseBuildId cfg b)
        ({ s with counts := (aset (parseBuildId cfg b)
            ((alookup (parseBuildId cfg b) s.counts).getD 0 + 1) s.counts) } : St).counts =
        some (c + 1) := by
      simp only []
      rw [alookup_aset_self, hC]
      simp
    have := ih (c + 1)
      ({ s with counts := (aset (parseBuildId cfg b)
            ((alookup (parseBuildId cfg b) s.counts).getD 0 + 1) s.counts) } : St)
      hD hI hC1
    rw [this]
    congr 1
    push_cast
    ring

/-- A `dispose` while at least two references remain: only the count changes. -/
theorem disposeF_pos (cfg : Config) (b : Option String) (c : Int) (s : St)
    (hC : alookup (parseBuildId cfg b) s.counts = some c) (hc : 2 ≤ c) :
    disposeF cfg b s =
      ({ s with counts := aset (parseBuildId cfg b) (c - 1) s.counts
                disposeCalls := s.disposeCalls + 1 }, Out.disposeDone) := by
  have h1 : max (c - 1) 0 = c - 1 := max_eq_left (by omega)
  have h2 : (0 : Int) < c - 1 := by omega
  simp [disposeF, hC, h1, h2]

/-- Repeated disposes that keep the count positive: nothing but the count (and
the dispose counter) changes. -/
theorem exec_dispRep (cfg : Config) (b : Option String) (c : Int) (k : Nat) (s : St)
    (hC : alookup (parseBuildId cfg b) s.counts = some c)
    (hk : (k : Int) ≤ c - 1) :
    (exec cfg (List.replicate k (Ev.dispose b)) s).instances = s.instances ∧
    (exec cfg (List.replicate k (Ev.dispose b)) s).destroying = s.destroying ∧
    (exec cfg (List.replicate k (Ev.dispose b)) s).dstore = s.dstore ∧
    (exec cfg (List.replicate k (Ev.dispose b)) s).bpromises = s.bpromises ∧
    (exec cfg (List.replicate k (Ev.dispose b)) s).buildCalls = s.buildCalls ∧
    (exec cfg (List.replicate k (Ev.dispose b)) s).destroyCbCalls = s.destroyCbCalls ∧
    (exec cfg (List.replicate k (Ev.dispose b)) s).nextPid = s.nextPid ∧
    (exec cfg (List.replicate k (Ev.dispose b)) s).nextDid = s.nextDid ∧
    alookup (parseBuildId cfg b)
      (exec cfg (List.replicate k (Ev.dispose b)) s).counts = some (c - k) := by
  induction k generalizing s c with
  | zero =>
    refine ⟨rfl, rfl, rfl, rfl, rfl, rfl, rfl, rfl, ?_⟩
    simpa [exec] using hC
  | succ k ih =>
    rw [List.replicate_succ, exec]
    have hdisp := disposeF_pos cfg b c s hC (by omega)
    have h1 : (step cfg (Ev.dispose b) s).1 =
        { s with counts := aset (parseBuildId cfg b) (c - 1) s.counts
                 disposeCalls := s.disposeCalls + 1 } := by
      simp [step, hdisp]
    rw [h1]
    have hC1 : alookup (parseBuildId cfg b)
        ({ s with counts := aset (parseBuildId cfg b) (c - 1) s.counts
                  disposeCalls := s.disposeCalls + 1 } : St).counts = some (c - 1) := by
      simp only []
      rw [alookup_aset_self]
    obtain ⟨i1, i2, i3, i4, i5, i6, i7, i8, i9⟩ := ih (c - 1)
      ({ s with counts := aset (parseBuildId cfg b) (c - 1) s.counts
                disposeCalls := s.disposeCalls + 1 } : St)
      hC1 (by push_cast at hk ⊢; omega)
    refine ⟨i1, i2, i3, i4, i5, i6, i7, i8, ?_⟩
    rw [i9]
    congr 1
    push_cast
    ring

/-- The dispose that brings the count from one to zero: it clamps the count at
zero and starts a destroy of the cached instance. -/
theorem disposeF_last (cfg : Config) (b : Option String) (pid : Nat) (s : St)
    (hC : alookup (parseBuildId cfg b) s.counts = some 1)
    (hD : alookup (parseBuildId cfg b) s.destroying = none)
    (hI : alookup (parseBuildId cfg b) s.instances = some pid)
    (hdd : cfg.disableDisposeDestroy = false) :
    disposeF cfg b s =
      ({ s with counts := aset (parseBuildId cfg b) 0 s.counts
                disposeCalls := s.disposeCalls + 1
                dstore := aset s.nextDid (DJob.waitInst pid) s.dstore
                destroying := aset (parseBuildId cfg b) s.nextDid s.destroying
                nextDid := s.nextDid + 1 },
        Out.awaitD s.nextDid) := by
  have h1 : max ((1 : Int) - 1) 0 = 0 := by norm_num
  simp [disposeF, hC, h1, hdd, destroyStartF, hD, hI]

/-- Driving a started destroy to completion (instance settled, callback
succeeds): the callback runs exactly once and all three maps drop the scope
identifier. -/
theorem destroy_complete (cfg : Config) (bId : String) (did pid v : Nat) (s : St)
    (hD : alookup bId s.destroying = some did)
    (hJ : alookup did s.dstore = some (DJob.waitInst pid))
    (hB : alookup pid s.bpromises = some (BState.fulfilled v))
    (hcb : cfg.hasDestroy = true)
    (hhook : cfg.hasDeps = true → cfg.hookInstalled = true) :
    exec cfg [Ev.destroyObserve bId, Ev.destroyCbOk bId, Ev.destroyFinish bId] s =
      { s with instances := adel bId s.instances
               counts := adel bId s.counts
               destroying := adel bId s.destroying
               dstore := (aset did DJob.finished
                 (aset did DJob.waitDeps (aset did (DJob.waitCb v) s.dstore)))
               destroyCbCalls := s.destroyCbCalls + 1
               resolverCalls := s.resolverCalls + (if cfg.hasDeps then 1 else 0) } := by
  have hguard := hook_guard_false hhook
  simp only [exec, step]
  rw [destroyObserveF]
  simp only [hD, hJ, hB, hcb, if_true]
  rw [destroyCbOkF]
  simp only [hD, alookup_aset_self]
  rw [destroyFinishF]
  simp only [hD, alookup_aset_self, hguard, Bool.false_eq_true, if_false]

/-- A dispose at count zero while a (possibly stale) destroy entry exists: the
triggered destroy just reuses that entry, so only the count map and the dispose
counter change. -/
theorem disposeF_zero_stale (cfg : Config) (b : Option String) (did : Nat) (s : St)
    (hC : alookup (parseBuildId cfg b) s.counts = some 0)
    (hD : alookup (parseBuildId cfg b) s.destroying = some did) :
    (disposeF cfg b s).1 =
      { s with counts := aset (parseBuildId cfg b) 0 s.counts
               disposeCalls := s.disposeCalls + 1 } := by
  have h1 : max ((0 : Int) - 1) 0 = 0 := by norm_num
  simp only [disposeF, hC, Option.getD_some, h1, lt_irrefl, if_false]
  split_ifs with h
  · rfl
  · simp [destroyStartF, hD]

/-- Repeated disposes at count zero against a stale destroy entry: the destroy
callback is never invoked again and the count stays pinned at zero. -/
theorem exec_dispIdleRep (cfg : Config) (b : Option String) (did : Nat) (m : Nat) (s : St)
    (hC : alookup (parseBuildId cfg b) s.counts = some 0)
    (hD : alookup (parseBuildId cfg b) s.destroying = some did) :
    (exec cfg (List.replicate m (Ev.dispose b)) s).destroyCbCalls = s.destroyCbCalls ∧
    alookup (parseBuildId cfg b)
      (exec cfg (List.replicate m (Ev.dispose b)) s).counts = some 0 ∧
    (exec cfg (List.replicate m (Ev.dispose b)) s).instances = s.instances ∧
    (exec cfg (List.replicate m (Ev.dispose b)) s).destroying = s.destroying := by
  induction m generalizing s with
  | zero =>
    refine ⟨rfl, ?_, rfl, rfl⟩
    simpa [exec] using hC
  | succ m ih =>
    rw [List.replicate_succ, exec]
    have h1 : (step cfg (Ev.dispose b) s).1 =
        { s with counts := aset (parseBuildId cfg b) 0 s.counts
                 disposeCalls := s.disposeCalls + 1 } := by
      have := disposeF_zero_stale cfg b did s hC hD
      simp [step, this]
    rw [h1]
    have hC1 : alookup (parseBuildId cfg b)
        ({ s with counts := aset (parseBuildId cfg b) 0 s.counts
                  disposeCalls := s.disposeCalls + 1 } : St).counts = some 0 := by
      simp only []
      rw [alookup_aset_self]
    obtain ⟨i1, i2, i3, i4⟩ := ih _ hC1 hD
    exact ⟨i1, i2, i3, i4⟩

/-- Reference counts are never negative (the decrement is clamped at zero). -/
def CountsNonneg (s : St) : Prop :=
  ∀ b c, alookup b s.counts = some c → 0 ≤ c

theorem countsNonneg_mainGet (cfg : Config) (bId : String) (s : St)
    (h : CountsNonneg s) : CountsNonneg (mainGet cfg bId s).1 := by
  have hval : 0 ≤ (alookup bId s.counts).getD 0 + 1 := by
    rcases hx : alookup bId s.counts with _ | c
    · simp
    · have := h bId c hx
      simp only [Option.getD_some]
      omega
  unfold mainGet
  rcases hI : alookup bId s.instances with _ | pid <;>
  · intro b' c' hl
    simp only at hl
    by_cases hb : b' = bId
    · rw [hb, alookup_aset_self] at hl
      obtain rfl := Option.some.inj hl
      exact hval
    · rw [alookup_aset_ne _ _ hb] at hl
      exact h b' c' hl

theorem countsNonneg_congr {s s' : St} (hc : s'.counts = s.counts)
    (h : CountsNonneg s) : CountsNonneg s' := by
  intro b c hl
  rw [hc] at hl
  exact h b c hl

theorem step_preserves_countsNonneg (cfg : Config) (ev : Ev) (s : St)
    (h : CountsNonneg s) : CountsNonneg (step cfg ev s).1 := by
  cases ev with
  | getStep b =>
    simp only [step, getStepF]
    rcases hD : alookup (parseBuildId cfg b) s.destroying with _ | did
    · simp only [hD]
      exact countsNonneg_mainGet cfg _ s h
    · simp only [hD]
      exact countsNonneg_congr rfl h
  | resumeGet gid =>
    simp only [step, resumeGetF]
    rcases hP : alookup gid s.parked with _ | bd
    · simpa [hP] using h
    · obtain ⟨bId, did⟩ := bd
      rcases hJ : alookup did s.dstore with _ | j
      · simpa [hP, hJ] using h
      · cases j with
        | finished =>
          simp only [hP, hJ]
          exact countsNonneg_mainGet cfg bId _ (countsNonneg_congr rfl h)
        | failedJ e => simpa [hP, hJ] using countsNonneg_congr rfl h
        | waitInst pid => simpa [hP, hJ] using h
        | waitCb v => simpa [hP, hJ] using h
        | waitDeps => simpa [hP, hJ] using h
  | settleBuild bId v =>
    simp only [step, settleBuildF]
    rcases hI : alookup bId s.instances with _ | pid
    · simpa [hI] using h
    · rcases hB : alookup pid s.bpromises with _ | bs
      · simpa [hI, hB] using h
      · cases bs with
        | pending =>
          by_cases hg : (cfg.hasDeps && !cfg.hookInstalled) = true
          · simpa [hI, hB, hg] using h
          · simp only [hI, hB]
            rw [if_neg (by simpa using hg)]
            exact countsNonneg_congr rfl h
        | fulfilled w => simpa [hI, hB] using h
        | rejected e => simpa [hI, hB] using h
  | failBuild bId e =>
    simp only [step, failBuildF]
    rcases hI : alookup bId s.instances with _ | pid
    · simpa [hI] using h
    · rcases hB : alookup pid s.bpromises with _ | bs
      · simpa [hI, hB] using h
      · cases bs with
        | pending =>
          simp only [hI, hB]
          exact countsNonneg_congr rfl h
        | fulfilled w => simpa [hI, hB] using h
        | rejected e2 => simpa [hI, hB] using h
  | dispose b =>
    simp only [step]
    have hbody : ∀ s1 : St, s1.counts = aset (parseBuildId cfg b)
        (max ((alookup (parseBuildId cfg b) s.counts).getD 0 - 1) 0) s.counts →
        CountsNonneg s1 := by
      intro s1 hc b' c' hl
      rw [hc] at hl
      by_cases hb : b' = parseBuildId cfg b
      · rw [hb, alookup_aset_self] at hl
        obtain rfl := Option.some.inj hl
        exact le_max_right _ _
      · rw [alookup_aset_ne _ _ hb] at hl
        exact h b' c' hl
    simp only [disposeF]
    split_ifs with h1 h2
    · exact hbody _ rfl
    · exact hbody _ rfl
    · refine hbody _ ?_
      rw [(destroyStartF_frame _ _).1]
  | destroyStart b =>
    simp only [step]
    exact countsNonneg_congr (destroyStartF_frame (parseBuildId cfg b) s).1 h
  | destroyObserve bId =>
    simp only [step, destroyObserveF]
    rcases hD : alookup bId s.destroying with _ | did
    · simpa [hD] using h
    · rcases hJ : alookup did s.dstore with _ | j
      · simpa [hD, hJ] using h
      · cases j with
        | waitInst pid =>
          rcases hB : alookup pid s.bpromises with _ | bs
          · simpa [hD, hJ, hB] using h
          · cases bs with
            | pending => simpa [hD, hJ, hB] using h
            | fulfilled w =>
              by_cases hcb : cfg.hasDestroy = true
              · simpa [hD, hJ, hB, hcb] using countsNonneg_congr rfl h
              · simp only [hD, hJ, hB]
                rw [if_neg hcb]
                exact countsNonneg_congr rfl h
            | rejected e => simpa [hD, hJ, hB] using countsNonneg_congr rfl h
        | waitCb v => simpa [hD, hJ] using h
        | waitDeps => simpa [hD, hJ] using h
        | finished => simpa [hD, hJ] using h
        | failedJ e => simpa [hD, hJ] using h
  | destroyCbOk bId =>
    simp only [step, destroyCbOkF]
    rcases hD : alookup bId s.destroying with _ | did
    · simpa [hD] using h
    · rcases hJ : alookup did s.dstore with _ | j
      · simpa [hD, hJ] using h
      · cases j <;> simpa [hD, hJ] using countsNonneg_congr rfl h
  | destroyCbFail bId e =>
    simp only [step, destroyCbFailF]
    rcases hD : alookup bId s.destroying with _ | did
    · simpa [hD] using h
    · rcases hJ : alookup did s.dstore with _ | j
      · simpa [hD, hJ] using h
      · cases j <;> simpa [hD, hJ] using countsNonneg_congr rfl h
  | destroyFinish bId =>
    simp only [step, destroyFinishF]
    rcases hD : alookup bId s.destroying with _ | did
    · simpa [hD] using h
    · rcases hJ : alookup did s.dstore with _ | j
      · simpa [hD, hJ] using h
      · cases j with
        | waitDeps =>
          by_cases hg : (cfg.hasDeps && !cfg.hookInstalled) = true
          · simpa [hD, hJ, hg] using countsNonneg_congr rfl h
          · simp only [hD, hJ]
            rw [if_neg (by simpa using hg)]
            intro b' c' hl
            simp only at hl
            exact h b' c' (alookup_adel_sub hl)
        | waitInst pid => simpa [hD, hJ] using h
        | waitCb v => simpa [hD, hJ] using h
        | finished => simpa [hD, hJ] using h
        | failedJ e2 => simpa [hD, hJ] using h

theorem exec_preserves_countsNonneg (cfg : Config) (t : List Ev) (s : St)
    (h : CountsNonneg s) : CountsNonneg (exec cfg t s) := by
  induction t generalizing s with
  | nil => exact h
  | cons ev t ih => exact ih _ (step_preserves_countsNonneg cfg ev s h)

/-- A dispose at count zero with no cache entry and no destroy entry: the
triggered destroy finds nothing, resolves immediately, and leaves a stale
settled `destroying` entry behind. -/
theorem disposeF_zero_fresh (cfg : Config) (b : Option String) (s : St)
    (hC : alookup (parseBuildId cfg b) s.counts = none)
    (hD : alookup (parseBuildId cfg b) s.destroying = none)
    (hI : alookup (parseBuildId cfg b) s.instances = none)
    (hdd : cfg.disableDisposeDestroy = false) :
    disposeF cfg b s =
      ({ s with counts := aset (parseBuildId cfg b) 0 s.counts
                disposeCalls := s.disposeCalls + 1
                dstore := aset s.nextDid DJob.finished s.dstore
                destroying := aset (parseBuildId cfg b) s.nextDid s.destroying
                nextDid := s.nextDid + 1 },
        Out.awaitD s.nextDid) := by
  simp [disposeF, hC, hdd, destroyStartF, hD, hI]

/-- C7: with a destroy callback configured, after `n ≥ 1` successful `get` calls
on a scope identifier, the first `n-1` disposes never invoke the destroy
callback, the `n`-th dispose (driven to completion) invokes it exactly once, any
number `m` of further disposes leave the invocation count at one with the
reference count pinned at zero, and — over EVERY possible trace — a stored
reference count is never negative. -/
theorem c7_theorem (cfg : Config) (b : Option String) (v : Nat) (n : Nat)
    (hn : 1 ≤ n) (hcb : cfg.hasDestroy = true)
    (hdd : cfg.disableDisposeDestroy = false)
    (hhook : cfg.hasDeps = true → cfg.hookInstalled = true) :
    (∀ k, k ≤ n - 1 →
      (exec cfg ((Ev.getStep b :: Ev.settleBuild (parseBuildId cfg b) v ::
          List.replicate (n - 1) (Ev.getStep b)) ++ List.replicate k (Ev.dispose b))
        initSt).destroyCbCalls = 0) ∧
    (∀ m : Nat,
      (exec cfg ((Ev.getStep b :: Ev.settleBuild (parseBuildId cfg b) v ::
          List.replicate (n - 1) (Ev.getStep b)) ++
          (List.replicate (n - 1) (Ev.dispose b) ++
          ([Ev.dispose b, Ev.destroyObserve (parseBuildId cfg b),
            Ev.destroyCbOk (parseBuildId cfg b), Ev.destroyFinish (parseBuildId cfg b)] ++
           List.replicate m (Ev.dispose b)))) initSt).destroyCbCalls = 1) ∧
    (∀ (m : Nat) (c : Int),
      alookup (parseBuildId cfg b) (exec cfg
        ((Ev.getStep b :: Ev.settleBuild (parseBuildId cfg b) v ::
          List.replicate (n - 1) (Ev.getStep b)) ++
          (List.replicate (n - 1) (Ev.dispose b) ++
          ([Ev.dispose b, Ev.destroyObserve (parseBuildId cfg b),
            Ev.destroyCbOk (parseBuildId cfg b), Ev.destroyFinish (parseBuildId cfg b)] ++
           List.replicate m (Ev.dispose b)))) initSt).counts = some c → c = 0) ∧
    (∀ (t : List Ev) (b2 : String) (c : Int),
      alookup b2 (exec cfg t initSt).counts = some c → 0 ≤ c) := by
  have hguard := hook_guard_false hhook
  have hinit2 : exec cfg [Ev.getStep b, Ev.settleBuild (parseBuildId cfg b) v] initSt =
      { instances := [(parseBuildId cfg b, 0)]
        counts := [(parseBuildId cfg b, 1)]
        destroying := []
        bpromises := [(0, BState.fulfilled v)]
        dstore := [], parked := [], nextPid := 1, nextDid := 0, nextGid := 0
        buildCalls := 1, destroyCbCalls := 0
        resolverCalls := if cfg.hasDeps then 1 else 0
        disposeCalls := 0 } := by
    simp only [exec]
    rw [exec_firstGet]
    simp [step, settleBuildF, alookup, aset, hguard]
  set s1 : St :=
    { instances := [(parseBuildId cfg b, 0)]
      counts := [(parseBuildId cfg b, 1)]
      destroying := []
      bpromises := [(0, BState.fulfilled v)]
      dstore := [], parked := [], nextPid := 1, nextDid := 0, nextGid := 0
      buildCalls := 1, destroyCbCalls := 0
      resolverCalls := if cfg.hasDeps then 1 else 0
      disposeCalls := 0 } with hs1
  have hD1 : alookup (parseBuildId cfg b) s1.destroying = none := by
    simp [hs1, alookup]
  have hI1 : alookup (parseBuildId cfg b) s1.instances = some 0 := by
    simp [hs1, alookup]
  have hC1 : alookup (parseBuildId cfg b) s1.counts = some 1 := by
    simp [hs1, alookup]
  obtain ⟨g1, g2, g3, g4, g5, g6, g7⟩ := exec_getRep cfg b 0 (n - 1) s1 hD1 hI1
  have gC := exec_getRep_counts cfg b 0 1 (n - 1) s1 hD1 hI1 hC1
  set s2 : St := exec cfg (List.replicate (n - 1) (Ev.getStep b)) s1 with hs2
  have htr1 : exec cfg (Ev.getStep b :: Ev.settleBuild (parseBuildId cfg b) v ::
      List.replicate (n - 1) (Ev.getStep b)) initSt = s2 := by
    rw [show (Ev.getStep b :: Ev.settleBuild (parseBuildId cfg b) v ::
        List.replicate (n - 1) (Ev.getStep b)) =
        [Ev.getStep b, Ev.settleBuild (parseBuildId cfg b) v] ++
        List.replicate (n - 1) (Ev.getStep b) from rfl]
    rw [exec_append, hinit2]
  obtain ⟨e1, e2, e3, e4, e5, e6, e7, e8, e9⟩ :=
    exec_dispRep cfg b (1 + (n - 1 : Nat)) (n - 1) s2 gC (by push_cast; omega)
  set sB : St := exec cfg (List.replicate (n - 1) (Ev.dispose b)) s2 with hsB
  have hCB : alookup (parseBuildId cfg b) sB.counts = some 1 := by
    rw [e9]
    congr 1
    push_cast
    ring
  have hDB : alookup (parseBuildId cfg b) sB.destroying = none := by
    rw [e2, g2]
    exact hD1
  have hIB : alookup (parseBuildId cfg b) sB.instances = some 0 := by
    rw [e1, g1]
    exact hI1
  have hBB : alookup 0 sB.bpromises = some (BState.fulfilled v) := by
    rw [e4, g3]
    simp [hs1, alookup]
  have hcbB : sB.destroyCbCalls = 0 := by
    rw [e6, g5]
  have hlast := disposeF_last cfg b 0 sB hCB hDB hIB hdd
  set sC : St :=
    { sB with counts := aset (parseBuildId cfg b) 0 sB.counts
              disposeCalls := sB.disposeCalls + 1
              dstore := aset sB.nextDid (DJob.waitInst 0) sB.dstore
              destroying := aset (parseBuildId cfg b) sB.nextDid sB.destroying
              nextDid := sB.nextDid + 1 } with hsC
  have hcomplete := destroy_complete cfg (parseBuildId cfg b) sB.nextDid 0 v sC
    (by simp only [hsC]; rw [alookup_aset_self])
    (by simp only [hsC]; rw [alookup_aset_self])
    (by simp only [hsC]; exact hBB)
    hcb hhook
  set sT : St :=
    { sC with instances := adel (parseBuildId cfg b) sC.instances
              counts := adel (parseBuildId cfg b) sC.counts
              destroying := adel (parseBuildId cfg b) sC.destroying
              dstore := (aset sB.nextDid DJob.finished
                (aset sB.nextDid DJob.waitDeps
                  (aset sB.nextDid (DJob.waitCb v) sC.dstore)))
              destroyCbCalls := sC.destroyCbCalls + 1
              resolverCalls := sC.resolverCalls + (if cfg.hasDeps then 1 else 0) }
    with hsT
  have h4 : exec cfg [Ev.dispose b, Ev.destroyObserve (parseBuildId cfg b),
      Ev.destroyCbOk (parseBuildId cfg b), Ev.destroyFinish (parseBuildId cfg b)] sB =
      sT := by
    have hstep1 : (step cfg (Ev.dispose b) sB).1 = sC := by
      simp [step, hlast, hsC]
    show exec cfg [Ev.destroyObserve (parseBuildId cfg b),
      Ev.destroyCbOk (parseBuildId cfg b), Ev.destroyFinish (parseBuildId cfg b)]
      (step cfg (Ev.dispose b) sB).1 = sT
    rw [hstep1, hcomplete, hsT]
  have hcbT : sT.destroyCbCalls = 1 := by
    simp only [hsT, hsC]
    rw [hcbB]
  have hCT : alookup (parseBuildId cfg b) sT.counts = none := by
    simp only [hsT]
    exact alookup_adel_self _ _
  have hDT : alookup (parseBuildId cfg b) sT.destroying = none := by
    simp only [hsT]
    exact alookup_adel_self _ _
  have hIT : alookup (parseBuildId cfg b) sT.instances = none := by
    simp only [hsT]
    exact alookup_adel_self _ _
  have hext : ∀ m : Nat,
      (exec cfg (List.replicate m (Ev.dispose b)) sT).destroyCbCalls = 1 ∧
      (∀ c : Int, alookup (parseBuildId cfg b)
        (exec cfg (List.replicate m (Ev.dispose b)) sT).counts = some c → c = 0) := by
    intro m
    cases m with
    | zero =>
      refine ⟨hcbT, ?_⟩
      intro c hc
      simp only [exec] at hc
      rw [hCT] at hc
      exact absurd hc (by simp)
    | succ m' =>
      rw [List.replicate_succ, exec]
      have hfresh := disposeF_zero_fresh cfg b sT hCT hDT hIT hdd
      have hU : (step cfg (Ev.dispose b) sT).1 =
          { sT with counts := aset (parseBuildId cfg b) 0 sT.counts
                    disposeCalls := sT.disposeCalls + 1
                    dstore := aset sT.nextDid DJob.finished sT.dstore
                    destroying := aset (parseBuildId cfg b) sT.nextDid sT.destroying
                    nextDid := sT.nextDid + 1 } := by
        simp [step, hfresh]
      rw [hU]
      obtain ⟨i1, i2, i3, i4⟩ := exec_dispIdleRep cfg b sT.nextDid m'
        ({ sT with counts := aset (parseBuildId cfg b) 0 sT.counts
                   disposeCalls := sT.disposeCalls + 1
                   dstore := aset sT.nextDid DJob.finished sT.dstore
                   destroying := aset (parseBuildId cfg b) sT.nextDid sT.destroying
                   nextDid := sT.nextDid + 1 } : St)
        (by simp only []; rw [alookup_aset_self])
        (by simp only []; rw [alookup_aset_self])
      refine ⟨?_, ?_⟩
      · rw [i1]
        exact hcbT
      · intro c hc
        rw [i2] at hc
        exact (Option.some.inj hc).symm
  refine ⟨?_, ?_, ?_, ?_⟩
  · intro k hk
    rw [exec_append, htr1]
    obtain ⟨_, _, _, _, _, d6, _, _, _⟩ :=
      exec_dispRep cfg b (1 + (n - 1 : Nat)) k s2 gC (by push_cast; omega)
    rw [d6, g5]
  · intro m
    rw [exec_append, htr1, exec_append, ← hsB, exec_append, h4]
    exact (hext m).1
  · intro m c hc
    rw [exec_append, htr1, exec_append, ← hsB, exec_append, h4] at hc
    exact (hext m).2 c hc
  · intro t b2 c hc
    refine exec_preserves_countsNonneg cfg t initSt ?_ b2 c hc
    intro b3 c3 hl
    simp [initSt, alookup] at hl

/-- C7, witness: three gets, two silent disposes, the third dispose tears down
exactly once, two further disposes change nothing. -/
theorem c7_witness :
    (exec cfgNoDeps ((Ev.getStep (some "w") ::
        Ev.settleBuild (parseBuildId cfgNoDeps (some "w")) 5 ::
        List.replicate 2 (Ev.getStep (some "w"))) ++
        List.replicate 2 (Ev.dispose (some "w"))) initSt).destroyCbCalls = 0 ∧
    (exec cfgNoDeps ((Ev.getStep (some "w") ::
        Ev.settleBuild (parseBuildId cfgNoDeps (some "w")) 5 ::
        List.replicate 2 (Ev.getStep (some "w"))) ++
        (List.replicate 2 (Ev.dispose (some "w")) ++
        ([Ev.dispose (some "w"), Ev.destroyObserve (parseBuildId cfgNoDeps (some "w")),
          Ev.destroyCbOk (parseBuildId cfgNoDeps (some "w")),
          Ev.destroyFinish (parseBuildId cfgNoDeps (some "w"))] ++
         List.replicate 2 (Ev.dispose (some "w"))))) initSt).destroyCbCalls = 1 :=
  ⟨(c7_theorem cfgNoDeps (some "w") 5 3 (by omega) rfl rfl (by decide)).1 2 (by omega),
   (c7_theorem cfgNoDeps (some "w") 5 3 (by omega) rfl rfl (by decide)).2.1 2⟩

/-! ## C6: a get during an in-flight destroy -/

/-- Well-formedness of promise identifiers: every cached build promise
identifier is below the fresh counter, and no two scope identifiers share one. -/
def PidWf (s : St) : Prop :=
  (∀ b p, alookup b s.instances = some p → p < s.nextPid) ∧
  (∀ b1 b2 p, alookup b1 s.instances = some p → alookup b2 s.instances = some p →
    b1 = b2)

theorem pidWf_congr {s s' : St} (hi : s'.instances = s.instances)
    (hn : s'.nextPid = s.nextPid) (h : PidWf s) : PidWf s' := by
  constructor
  · intro b p hl
    rw [hi] at hl
    rw [hn]
    exact h.1 b p hl
  · intro b1 b2 p h1 h2
    rw [hi] at h1 h2
    exact h.2 b1 b2 p h1 h2

theorem pidWf_mainGet (cfg : Config) (bId : String) (s : St)
    (h : PidWf s) : PidWf (mainGet cfg bId s).1 := by
  unfold mainGet
  rcases hI : alookup bId s.instances with _ | pid
  · constructor
    · intro b p hl
      simp only at hl ⊢
      by_cases hb : b = bId
      · rw [hb, alookup_aset_self] at hl
        obtain rfl := Option.some.inj hl
        omega
      · rw [alookup_aset_ne _ _ hb] at hl
        have := h.1 b p hl
        omega
    · intro b1 b2 p h1 h2
      simp only at h1 h2
      by_cases hb1 : b1 = bId <;> by_cases hb2 : b2 = bId
      · rw [hb1, hb2]
      · rw [hb1, alookup_aset_self] at h1
        rw [alookup_aset_ne _ _ hb2] at h2
        obtain rfl := Option.some.inj h1
        exact absurd (h.1 b2 _ h2) (by omega)
      · rw [hb2, alookup_aset_self] at h2
        rw [alookup_aset_ne _ _ hb1] at h1
        obtain rfl := Option.some.inj h2
        exact absurd (h.1 b1 _ h1) (by omega)
      · rw [alookup_aset_ne _ _ hb1] at h1
        rw [alookup_aset_ne _ _ hb2] at h2
        exact h.2 b1 b2 p h1 h2
  · exact pidWf_congr rfl rfl h

theorem pidWf_adel (bId : String) (s s' : St)
    (hi : s'.instances = adel bId s.instances) (hn : s'.nextPid = s.nextPid)
    (h : PidWf s) : PidWf s' := by
  constructor
  · intro b p hl
    rw [hi] at hl
    rw [hn]
    exact h.1 b p (alookup_adel_sub hl)
  · intro b1 b2 p h1 h2
    rw [hi] at h1 h2
    exact h.2 b1 b2 p (alookup_adel_sub h1) (alookup_adel_sub h2)

theorem step_preserves_pidWf (cfg : Config) (ev : Ev) (s : St)
    (h : PidWf s) : PidWf (step cfg ev s).1 := by
  cases ev with
  | getStep b =>
    simp only [step, getStepF]
    rcases hD : alookup (parseBuildId cfg b) s.destroying with _ | did
    · simp only [hD]
      exact pidWf_mainGet cfg _ s h
    · simp only [hD]
      exact pidWf_congr rfl rfl h
  | resumeGet gid =>
    simp only [step, resumeGetF]
    rcases hP : alookup gid s.parked with _ | bd
    · simpa [hP] using h
    · obtain ⟨bId, did⟩ := bd
      rcases hJ : alookup did s.dstore with _ | j
      · simpa [hP, hJ] using h
      · cases j with
        | finished =>
          simp only [hP, hJ]
          exact pidWf_mainGet cfg bId _ (pidWf_congr rfl rfl h)
        | failedJ e => simpa [hP, hJ] using pidWf_congr rfl rfl h
        | waitInst pid => simpa [hP, hJ] using h
        | waitCb v => simpa [hP, hJ] using h
        | waitDeps => simpa [hP, hJ] using h
  | settleBuild bId v =>
    simp only [step, settleBuildF]
    rcases hI : alookup bId s.instances with _ | pid
    · simpa [hI] using h
    · rcases hB : alookup pid s.bpromises with _ | bs
      · simpa [hI, hB] using h
      · cases bs with
        | pending =>
          by_cases hg : (cfg.hasDeps && !cfg.hookInstalled) = true
          · simpa [hI, hB, hg] using h
          · simp only [hI, hB]
            rw [if_neg (by simpa using hg)]
            exact pidWf_congr rfl rfl h
        | fulfilled w => simpa [hI, hB] using h
        | rejected e => simpa [hI, hB] using h
  | failBuild bId e =>
    simp only [step, failBuildF]
    rcases hI : alookup bId s.instances with _ | pid
    · simpa [hI] using h
    · rcases hB : alookup pid s.bpromises with _ | bs
      · simpa [hI, hB] using h
      · cases bs with
        | pending =>
          simp only [hI, hB]
          exact pidWf_adel bId s _ rfl rfl h
        | fulfilled w => simpa [hI, hB] using h
        | rejected e2 => simpa [hI, hB] using h
  | dispose b =>
    simp only [step, disposeF]
    split_ifs with h1 h2
    · exact pidWf_congr rfl rfl h
    · exact pidWf_congr rfl rfl h
    · refine pidWf_congr ?_ ?_ h
      · rw [(destroyStartF_frame _ _).2]
      · rw [destroyStartF_nextPid]
  | destroyStart b =>
    simp only [step]
    refine pidWf_congr ?_ ?_ h
    · rw [(destroyStartF_frame _ _).2]
    · rw [destroyStartF_nextPid]
  | destroyObserve bId =>
    simp only [step, destroyObserveF]
    rcases hD : alookup bId s.destroying with _ | did
    · simpa [hD] using h
    · rcases hJ : alookup did s.dstore with _ | j
      · simpa [hD, hJ] using h
      · cases j with
        | waitInst pid =>
          rcases hB : alookup pid s.bpromises with _ | bs
          · simpa [hD, hJ, hB] using h
          · cases bs with
            | pending => simpa [hD, hJ, hB] using h
            | fulfilled w =>
              by_cases hcb : cfg.hasDestroy = true
              · simpa [hD, hJ, hB, hcb] using pidWf_congr rfl rfl h
              · simp only [hD, hJ, hB]
                rw [if_neg hcb]
                exact pidWf_congr rfl rfl h
            | rejected e => simpa [hD, hJ, hB] using pidWf_congr rfl rfl h
        | waitCb v => simpa [hD, hJ] using h
        | waitDeps => simpa [hD, hJ] using h
        | finished => simpa [hD, hJ] using h
        | failedJ e => simpa [hD, hJ] using h
  | destroyCbOk bId =>
    simp only [step, destroyCbOkF]
    rcases hD : alookup bId s.destroying with _ | did
    · simpa [hD] using h
    · rcases hJ : alookup did s.dstore with _ | j
      · simpa [hD, hJ] using h
      · cases j <;> simpa [hD, hJ] using pidWf_congr rfl rfl h
  | destroyCbFail bId e =>
    simp only [step, destroyCbFailF]
    rcases hD : alookup bId s.destroying with _ | did
    · simpa [hD] using h
    · rcases hJ : alookup did s.dstore with _ | j
      · simpa [hD, hJ] using h
      · cases j <;> simpa [hD, hJ] using pidWf_congr rfl rfl h
  | destroyFinish bId =>
    simp only [step, destroyFinishF]
    rcases hD : alookup bId s.destroying with _ | did
    · simpa [hD] using h
    · rcases hJ : alookup did s.dstore with _ | j
      · simpa [hD, hJ] using h
      · cases j with
        | waitDeps =>
          by_cases hg : (cfg.hasDeps && !cfg.hookInstalled) = true
          · simpa [hD, hJ, hg] using pidWf_congr rfl rfl h
          · simp only [hD, hJ]
            rw [if_neg (by simpa using hg)]
            exact pidWf_adel bId s _ rfl rfl h
        | waitInst pid => simpa [hD, hJ] using h
        | waitCb v => simpa [hD, hJ] using h
        | finished => simpa [hD, hJ] using h
        | failedJ e2 => simpa [hD, hJ] using h

theorem exec_preserves_pidWf (cfg : Config) (t : List Ev) (s : St)
    (h : PidWf s) : PidWf (exec cfg t s) := by
  induction t generalizing s with
  | nil => exact h
  | cons ev t ih => exact ih _ (step_preserves_pidWf cfg ev s h)

theorem pidWf_init : PidWf initSt := by
  constructor
  · intro b p hl
    simp [initSt, alookup] at hl
  · intro b1 b2 p h1 h2
    simp [initSt, alookup] at h1

/-- Once a promise identifier `pid` is out of the instance cache and below the
fresh counter, no later event can ever put it back. -/
def PidGone (pid : Nat) (s : St) : Prop :=
  (∀ b, alookup b s.instances ≠ some pid) ∧ pid < s.nextPid

theorem pidGone_congr {pid : Nat} {s s' : St} (hi : s'.instances = s.instances)
    (hn : s'.nextPid = s.nextPid) (h : PidGone pid s) : PidGone pid s' := by
  constructor
  · intro b
    rw [hi]
    exact h.1 b
  · rw [hn]
    exact h.2

theorem pidGone_mainGet (cfg : Config) (bId : String) (pid : Nat) (s : St)
    (h : PidGone pid s) : PidGone pid (mainGet cfg bId s).1 := by
  unfold mainGet
  rcases hI : alookup bId s.instances with _ | pid2
  · constructor
    · intro b
      simp only []
      by_cases hb : b = bId
      · rw [hb, alookup_aset_self]
        intro hc
        obtain rfl := Option.some.inj hc
        exact absurd h.2 (by omega)
      · rw [alookup_aset_ne _ _ hb]
        exact h.1 b
    · simp only []
      have := h.2
      omega
  · exact pidGone_congr rfl rfl h

theorem pidGone_adel {pid : Nat} (bId : String) (s s' : St)
    (hi : s'.instances = adel bId s.instances) (hn : s'.nextPid = s.nextPid)
    (h : PidGone pid s) : PidGone pid s' := by
  constructor
  · intro b hc
    rw [hi] at hc
    exact h.1 b (alookup_adel_sub hc)
  · rw [hn]
    exact h.2

theorem step_preserves_pidGone (cfg : Config) (ev : Ev) (pid : Nat) (s : St)
    (h : PidGone pid s) : PidGone pid (step cfg ev s).1 := by
  cases ev with
  | getStep b =>
    simp only [step, getStepF]
    rcases hD : alookup (parseBuildId cfg b) s.destroying with _ | did
    · simp only [hD]
      exact pidGone_mainGet cfg _ pid s h
    · simp only [hD]
      exact pidGone_congr rfl rfl h
  | resumeGet gid =>
    simp only [step, resumeGetF]
    rcases hP : alookup gid s.parked with _ | bd
    · simpa [hP] using h
    · obtain ⟨bId, did⟩ := bd
      rcases hJ : alookup did s.dstore with _ | j
      · simpa [hP, hJ] using h
      · cases j with
        | finished =>
          simp only [hP, hJ]
          exact pidGone_mainGet cfg bId pid _ (pidGone_congr rfl rfl h)
        | failedJ e => simpa [hP, hJ] using pidGone_congr rfl rfl h
        | waitInst pid2 => simpa [hP, hJ] using h
        | waitCb v => simpa [hP, hJ] using h
        | waitDeps => simpa [hP, hJ] using h
  | settleBuild bId v =>
    simp only [step, settleBuildF]
    rcases hI : alookup bId s.instances with _ | pid2
    · simpa [hI] using h
    · rcases hB : alookup pid2 s.bpromises with _ | bs
      · simpa [hI, hB] using h
      · cases bs with
        | pending =>
          by_cases hg : (cfg.hasDeps && !cfg.hookInstalled) = true
          · simpa [hI, hB, hg] using h
          · simp only [hI, hB]
            rw [if_neg (by simpa using hg)]
            exact pidGone_congr rfl rfl h
        | fulfilled w => simpa [hI, hB] using h
        | rejected e => simpa [hI, hB] using h
  | failBuild bId e =>
    simp only [step, failBuildF]
    rcases hI : alookup bId s.instances with _ | pid2
    · simpa [hI] using h
    · rcases hB : alookup pid2 s.bpromises with _ | bs
      · simpa [hI, hB] using h
      · cases bs with
        | pending =>
          simp only [hI, hB]
          exact pidGone_adel bId s _ rfl rfl h
        | fulfilled w => simpa [hI, hB] using h
        | rejected e2 => simpa [hI, hB] using h
  | dispose b =>
    simp only [step, disposeF]
    split_ifs with h1 h2
    · exact pidGone_congr rfl rfl h
    · exact pidGone_congr rfl rfl h
    · refine pidGone_congr ?_ ?_ h
      · rw [(destroyStartF_frame _ _).2]
      · rw [destroyStartF_nextPid]
  | destroyStart b =>
    simp only [step]
    refine pidGone_congr ?_ ?_ h
    · rw [(destroyStartF_frame _ _).2]
    · rw [destroyStartF_nextPid]
  | destroyObserve bId =>
    simp only [step, destroyObserveF]
    rcases hD : alookup bId s.destroying with _ | did
    · simpa [hD] using h
    · rcases hJ : alookup did s.dstore with _ | j
      · simpa [hD, hJ] using h
      · cases j with
        | waitInst pid2 =>
          rcases hB : alookup pid2 s.bpromises with _ | bs
          · simpa [hD, hJ, hB] using h
          · cases bs with
            | pending => simpa [hD, hJ, hB] using h
            | fulfilled w =>
              by_cases hcb : cfg.hasDestroy = true
              · simpa [hD, hJ, hB, hcb] using pidGone_congr rfl rfl h
              · simp only [hD, hJ, hB]
                rw [if_neg hcb]
                exact pidGone_congr rfl rfl h
            | rejected e => simpa [hD, hJ, hB] using pidGone_congr rfl rfl h
        | waitCb v => simpa [hD, hJ] using h
        | waitDeps => simpa [hD, hJ] using h
        | finished => simpa [hD, hJ] using h
        | failedJ e => simpa [hD, hJ] using h
  | destroyCbOk bId =>
    simp only [step, destroyCbOkF]
    rcases hD : alookup bId s.destroying with _ | did
    · simpa [hD] using h
    · rcases hJ : alookup did s.dstore with _ | j
      · simpa [hD, hJ] using h
      · cases j <;> simpa [hD, hJ] using pidGone_congr rfl rfl h
  | destroyCbFail bId e =>
    simp only [step, destroyCbFailF]
    rcases hD : alookup bId s.destroying with _ | did
    · simpa [hD] using h
    · rcases hJ : alookup did s.dstore with _ | j
      · simpa [hD, hJ] using h
      · cases j <;> simpa [hD, hJ] using pidGone_congr rfl rfl h
  | destroyFinish bId =>
    simp only [step, destroyFinishF]
    rcases hD : alookup bId s.destroying with _ | did
    · simpa [hD] using h
    · rcases hJ : alookup did s.dstore with _ | j
      · simpa [hD, hJ] using h
      · cases j with
        | waitDeps =>
          by_cases hg : (cfg.hasDeps && !cfg.hookInstalled) = true
          · simpa [hD, hJ, hg] using pidGone_congr rfl rfl h
          · simp only [hD, hJ]
            rw [if_neg (by simpa using hg)]
            exact pidGone_adel bId s _ rfl rfl h
        | waitInst pid2 => simpa [hD, hJ] using h
        | waitCb v => simpa [hD, hJ] using h
        | finished => simpa [hD, hJ] using h
        | failedJ e2 => simpa [hD, hJ] using h

theorem exec_preserves_pidGone (cfg : Config) (t : List Ev) (pid : Nat) (s : St)
    (h : PidGone pid s) : PidGone pid (exec cfg t s) := by
  induction t generalizing s with
  | nil => exact h
  | cons ev t ih => exact ih _ (step_preserves_pidGone cfg ev pid s h)

/-- Resuming a parked get in any state from which `pid` is gone can never
produce a wait on `pid`. -/
theorem resumeGet_not_pid (cfg : Config) (gid pid : Nat) (s : St)
    (h : PidGone pid s) : (resumeGetF cfg gid s).2 ≠ some (Out.waiting pid) := by
  unfold resumeGetF
  rcases hP : alookup gid s.parked with _ | bd
  · simp [hP]
  · obtain ⟨bId, did⟩ := bd
    rcases hJ : alookup did s.dstore with _ | j
    · simp [hP, hJ]
    · cases j with
      | finished =>
        simp only [hP, hJ]
        unfold mainGet
        rcases hI : alookup bId s.instances with _ | pid2
        · simp only [hI]
          intro hc
          have h3 := Option.some.inj hc
          have h2 := h.2
          injection h3 with h4
          omega
        · simp only [hI]
          intro hc
          have h3 := Option.some.inj hc
          injection h3 with h4
          exact h.1 bId (h4 ▸ hI)
      | failedJ e => simp [hP, hJ]
      | waitInst pid2 => simp [hP, hJ]
      | waitCb v => simp [hP, hJ]
      | waitDeps => simp [hP, hJ]

/-- Driving a destroy whose callback is in flight to successful completion. -/
theorem destroy_completeCb (cfg : Config) (bId : String) (did v : Nat) (s : St)
    (hD : alookup bId s.destroying = some did)
    (hJ : alookup did s.dstore = some (DJob.waitCb v))
    (hhook : cfg.hasDeps = true → cfg.hookInstalled = true) :
    exec cfg [Ev.destroyCbOk bId, Ev.destroyFinish bId] s =
      { s with instances := adel bId s.instances
               counts := adel bId s.counts
               destroying := adel bId s.destroying
               dstore := aset did DJob.finished (aset did DJob.waitDeps s.dstore)
               resolverCalls := s.resolverCalls + (if cfg.hasDeps then 1 else 0) } := by
  have hguard := hook_guard_false hhook
  simp only [exec, step]
  rw [destroyCbOkF]
  simp only [hD, hJ]
  rw [destroyFinishF]
  simp only [hD, alookup_aset_self, hguard, Bool.false_eq_true, if_false]

/-- C6: a `get` issued while a destroy is in flight for the same scope
identifier parks without touching the cache or starting a build; once the
destroy completes, both maps have dropped the scope identifier, and resuming the
parked get starts a fresh build whose promise differs from the one being torn
down; moreover after ANY continuation of the schedule, resuming that get can
never yield the torn-down promise `pid`. -/
theorem c6_theorem (cfg : Config) (t u : List Ev) (b : Option String)
    (did pid v : Nat)
    (hhook : cfg.hasDeps = true → cfg.hookInstalled = true)
    (hD : alookup (parseBuildId cfg b) (exec cfg t initSt).destroying = some did)
    (hJ : alookup did (exec cfg t initSt).dstore = some (DJob.waitCb v))
    (hI : alookup (parseBuildId cfg b) (exec cfg t initSt).instances = some pid) :
    (step cfg (Ev.getStep b) (exec cfg t initSt)).2 =
      some (Out.parkedO (exec cfg t initSt).nextGid) ∧
    (step cfg (Ev.getStep b) (exec cfg t initSt)).1.instances =
      (exec cfg t initSt).instances ∧
    (step cfg (Ev.getStep b) (exec cfg t initSt)).1.buildCalls =
      (exec cfg t initSt).buildCalls ∧
    alookup (parseBuildId cfg b)
      (exec cfg [Ev.destroyCbOk (parseBuildId cfg b),
        Ev.destroyFinish (parseBuildId cfg b)]
        (step cfg (Ev.getStep b) (exec cfg t initSt)).1).destroying = none ∧
    alookup (parseBuildId cfg b)
      (exec cfg [Ev.destroyCbOk (parseBuildId cfg b),
        Ev.destroyFinish (parseBuildId cfg b)]
        (step cfg (Ev.getStep b) (exec cfg t initSt)).1).instances = none ∧
    (resumeGetF cfg (exec cfg t initSt).nextGid
      (exec cfg [Ev.destroyCbOk (parseBuildId cfg b),
        Ev.destroyFinish (parseBuildId cfg b)]
        (step cfg (Ev.getStep b) (exec cfg t initSt)).1)).2 =
      some (Out.waiting (exec cfg t initSt).nextPid) ∧
    (exec cfg t initSt).nextPid ≠ pid ∧
    (resumeGetF cfg (exec cfg t initSt).nextGid
      (exec cfg [Ev.destroyCbOk (parseBuildId cfg b),
        Ev.destroyFinish (parseBuildId cfg b)]
        (step cfg (Ev.getStep b) (exec cfg t initSt)).1)).1.buildCalls =
      (exec cfg t initSt).buildCalls + 1 ∧
    (resumeGetF cfg (exec cfg t initSt).nextGid
      (exec cfg u
        (exec cfg [Ev.destroyCbOk (parseBuildId cfg b),
          Ev.destroyFinish (parseBuildId cfg b)]
          (step cfg (Ev.getStep b) (exec cfg t initSt)).1))).2 ≠
      some (Out.waiting pid) := by
  have hwf := exec_preserves_pidWf cfg t initSt pidWf_init
  have hlt : pid < (exec cfg t initSt).nextPid := hwf.1 _ _ hI
  set s : St := exec cfg t initSt with hs
  have hpark : step cfg (Ev.getStep b) s =
      ({ s with parked := aset s.nextGid (parseBuildId cfg b, did) s.parked
                nextGid := s.nextGid + 1 },
       some (Out.parkedO s.nextGid)) := by
    simp [step, getStepF, hD]
  set s1 : St :=
    { s with parked := aset s.nextGid (parseBuildId cfg b, did) s.parked
             nextGid := s.nextGid + 1 } with hs1
  have hcompl := destroy_completeCb cfg (parseBuildId cfg b) did v s1 hD hJ hhook
  set s2 : St :=
    { s1 with instances := adel (parseBuildId cfg b) s1.instances
              counts := adel (parseBuildId cfg b) s1.counts
              destroying := adel (parseBuildId cfg b) s1.destroying
              dstore := aset did DJob.finished (aset did DJob.waitDeps s1.dstore)
              resolverCalls := s1.resolverCalls + (if cfg.hasDeps then 1 else 0) }
    with hs2
  have hstep1 : (step cfg (Ev.getStep b) s).1 = s1 := by
    rw [hpark]
  have hexec2 : exec cfg [Ev.destroyCbOk (parseBuildId cfg b),
      Ev.destroyFinish (parseBuildId cfg b)]
      (step cfg (Ev.getStep b) s).1 = s2 := by
    rw [hstep1, hcompl, hs2]
  have hD2 : alookup (parseBuildId cfg b) s2.destroying = none := by
    simp only [hs2]
    exact alookup_adel_self _ _
  have hI2 : alookup (parseBuildId cfg b) s2.instances = none := by
    simp only [hs2]
    exact alookup_adel_self _ _
  have hgone : PidGone pid s2 := by
    constructor
    · intro b' hc
      simp only [hs2] at hc
      by_cases hb : b' = parseBuildId cfg b
      · rw [hb, alookup_adel_self] at hc
        exact absurd hc (by simp)
      · rw [alookup_adel_ne _ hb] at hc
        exact hb (hwf.2 b' (parseBuildId cfg b) pid hc hI)
    · simpa [hs2] using hlt
  have hresume : resumeGetF cfg s.nextGid s2 =
      ((mainGet cfg (parseBuildId cfg b)
        { s2 with parked := adel s.nextGid s2.parked }).1,
       some (mainGet cfg (parseBuildId cfg b)
        { s2 with parked := adel s.nextGid s2.parked }).2) := by
    rw [resumeGetF]
    have hP2 : alookup s.nextGid s2.parked =
        some (parseBuildId cfg b, did) := by
      simp only [hs2, hs1]
      rw [alookup_aset_self]
    rw [hP2]
    simp only [hs2]
    rw [alookup_aset_self]
  have hmg : mainGet cfg (parseBuildId cfg b)
      { s2 with parked := adel s.nextGid s2.parked } =
      ({ { s2 with parked := adel s.nextGid s2.parked } with
          instances := aset (parseBuildId cfg b) s2.nextPid s2.instances
          bpromises := aset s2.nextPid BState.pending s2.bpromises
          counts := (aset (parseBuildId cfg b)
            ((alookup (parseBuildId cfg b) s2.counts).getD 0 + 1) s2.counts)
          nextPid := s2.nextPid + 1
          buildCalls := s2.buildCalls + 1
          resolverCalls := s2.resolverCalls + (if cfg.hasDeps then 1 else 0) },
       Out.waiting s2.nextPid) := by
    rw [mainGet]
    simp only [hI2]
  refine ⟨?_, ?_, ?_, ?_, ?_, ?_, ?_, ?_, ?_⟩
  · rw [hpark]
  · rw [hstep1]
  · rw [hstep1]
  · rw [hexec2]
    exact hD2
  · rw [hexec2]
    exact hI2
  · rw [hexec2, hresume, hmg]
  · omega
  · rw [hexec2, hresume, hmg]
  · rw [hexec2]
    exact resumeGet_not_pid cfg s.nextGid pid _
      (exec_preserves_pidGone cfg u pid s2 hgone)

/-- C6, witness: a destroy of scope "w" is mid-callback; a get parks, the
destroy completes, and the resumed get starts build 1 rather than returning the
torn-down build 0. -/
theorem c6_witness :
    (step cfgNoDeps (Ev.getStep (some "w"))
      (exec cfgNoDeps
        [Ev.getStep (some "w"), Ev.settleBuild "w" 5, Ev.destroyStart (some "w"),
         Ev.destroyObserve "w"] initSt)).2 =
      some (Out.parkedO (exec cfgNoDeps
        [Ev.getStep (some "w"), Ev.settleBuild "w" 5, Ev.destroyStart (some "w"),
         Ev.destroyObserve "w"] initSt).nextGid) ∧
    (exec cfgNoDeps
        [Ev.getStep (some "w"), Ev.settleBuild "w" 5, Ev.destroyStart (some "w"),
         Ev.destroyObserve "w"] initSt).nextPid ≠ 0 :=
  ⟨(c6_theorem cfgNoDeps
      [Ev.getStep (some "w"), Ev.settleBuild "w" 5, Ev.destroyStart (some "w"),
       Ev.destroyObserve "w"] [] (some "w") 0 0 5 (by decide) (by decide)
      (by decide) (by decide)).1,
   (c6_theorem cfgNoDeps
      [Ev.getStep (some "w"), Ev.settleBuild "w" 5, Ev.destroyStart (some "w"),
       Ev.destroyObserve "w"] [] (some "w") 0 0 5 (by decide) (by decide)
      (by decide) (by decide)).2.2.2.2.2.2.1⟩

/-! ## C10: empty dependency maps never touch the resolver hook -/

theorem hasDeps_false_of_empty {cfg : Config}
    (h : cfg.deps = none ∨ cfg.deps = some []) : cfg.hasDeps = false := by
  rcases h with h | h <;> simp [Config.hasDeps, h]

theorem destroyStartF_resolver (bId : String) (s : St) :
    (destroyStartF bId s).1.resolverCalls = s.resolverCalls := by
  unfold destroyStartF
  rcases h : alookup bId s.destroying with _ | did
  · rcases h2 : alookup bId s.instances with _ | pid <;> simp [h, h2]
  · simp [h]

theorem step_resolver_const (cfg : Config) (ev : Ev) (s : St)
    (hnd : cfg.hasDeps = false) :
    (step cfg ev s).1.resolverCalls = s.resolverCalls := by
  have hmg : ∀ bId s', (mainGet cfg bId s').1.resolverCalls = s'.resolverCalls := by
    intro bId s'
    unfold mainGet
    rcases hI : alookup bId s'.instances with _ | pid <;> simp [hI, hnd]
  cases ev with
  | getStep b =>
    simp only [step, getStepF]
    rcases hD : alookup (parseBuildId cfg b) s.destroying with _ | did
    · simp only [hD]
      exact hmg _ s
    · simp [hD]
  | resumeGet gid =>
    simp only [step, resumeGetF]
    rcases hP : alookup gid s.parked with _ | bd
    · simp [hP]
    · obtain ⟨bId, did⟩ := bd
      rcases hJ : alookup did s.dstore with _ | j
      · simp [hP, hJ]
      · cases j with
        | finished =>
          simp only [hP, hJ]
          exact hmg bId _
        | failedJ e => simp [hP, hJ]
        | waitInst pid => simp [hP, hJ]
        | waitCb v => simp [hP, hJ]
        | waitDeps => simp [hP, hJ]
  | settleBuild bId v =>
    simp only [step, settleBuildF]
    rcases hI : alookup bId s.instances with _ | pid
    · simp [hI]
    · rcases hB : alookup pid s.bpromises with _ | bs
      · simp [hI, hB]
      · cases bs with
        | pending => simp [hI, hB, hnd]
        | fulfilled w => simp [hI, hB]
        | rejected e => simp [hI, hB]
  | failBuild bId e =>
    simp only [step, failBuildF]
    rcases hI : alookup bId s.instances with _ | pid
    · simp [hI]
    · rcases hB : alookup pid s.bpromises with _ | bs
      · simp [hI, hB]
      · cases bs <;> simp [hI, hB]
  | dispose b =>
    simp only [step, disposeF]
    split_ifs with h1 h2
    · rfl
    · rfl
    · rw [destroyStartF_resolver]
  | destroyStart b =>
    simp only [step]
    rw [destroyStartF_resolver]
  | destroyObserve bId =>
    simp only [step, destroyObserveF]
    rcases hD : alookup bId s.destroying with _ | did
    · simp [hD]
    · rcases hJ : alookup did s.dstore with _ | j
      · simp [hD, hJ]
      · cases j with
        | waitInst pid =>
          rcases hB : alookup pid s.bpromises with _ | bs
          · simp [hD, hJ, hB]
          · cases bs with
            | pending => simp [hD, hJ, hB]
            | fulfilled w =>
              by_cases hcb : cfg.hasDestroy = true
              · simp [hD, hJ, hB, hcb]
              · simp only [hD, hJ, hB]
                rw [if_neg hcb]
            | rejected e => simp [hD, hJ, hB]
        | waitCb v => simp [hD, hJ]
        | waitDeps => simp [hD, hJ]
        | finished => simp [hD, hJ]
        | failedJ e => simp [hD, hJ]
  | destroyCbOk bId =>
    simp only [step, destroyCbOkF]
    rcases hD : alookup bId s.destroying with _ | did
    · simp [hD]
    · rcases hJ : alookup did s.dstore with _ | j
      · simp [hD, hJ]
      · cases j <;> simp [hD, hJ]
  | destroyCbFail bId e =>
    simp only [step, destroyCbFailF]
    rcases hD : alookup bId s.destroying with _ | did
    · simp [hD]
    · rcases hJ : alookup did s.dstore with _ | j
      · simp [hD, hJ]
      · cases j <;> simp [hD, hJ]
  | destroyFinish bId =>
    simp only [step, destroyFinishF]
    rcases hD : alookup bId s.destroying with _ | did
    · simp [hD]
    · rcases hJ : alookup did s.dstore with _ | j
      · simp [hD, hJ]
      · cases j with
        | waitDeps =>
          by_cases hg : (cfg.hasDeps && !cfg.hookInstalled) = true
          · simp [hD, hJ, hg]
          · simp only [hD, hJ]
            rw [if_neg (by simpa using hg)]
            simp [hnd]
        | waitInst pid => simp [hD, hJ]
        | waitCb v => simp [hD, hJ]
        | finished => simp [hD, hJ]
        | failedJ e2 => simp [hD, hJ]

/-- C10: a Provider whose `deps` is absent or empty never invokes the
process-wide resolver hook (`Provider.get`) under ANY sequence of operations —
in particular the "not initilized" error branch of the hook is unreachable — and
its `get` succeeds even when the hook has never been installed. -/
theorem c10_theorem (cfg : Config) (hdeps : cfg.deps = none ∨ cfg.deps = some []) :
    (∀ t : List Ev, (exec cfg t initSt).resolverCalls = 0) ∧
    (∀ (b : Option String) (v : Nat),
      (getRun cfg (Except.ok v) b initSt).2 = some (Except.ok v)) := by
  have hnd := hasDeps_false_of_empty hdeps
  constructor
  · have hgen : ∀ (t : List Ev) (s : St),
        (exec cfg t s).resolverCalls = s.resolverCalls := by
      intro t
      induction t with
      | nil => intro s; rfl
      | cons ev t ih =>
        intro s
        rw [exec, ih, step_resolver_const cfg ev s hnd]
    intro t
    rw [hgen t initSt]
    rfl
  · intro b v
    simp [getRun, getStepF, mainGet, initSt, alookup, step, settleBuildF, aset,
      hnd, getResult]

/-- C10, witness: with no deps and the hook never installed, a get succeeds and
the resolver is never consulted. -/
theorem c10_witness :
    (exec (Config.mk false false false none false)
      [Ev.getStep (some "w"), Ev.settleBuild "w" 3, Ev.dispose (some "w")]
      initSt).resolverCalls = 0 ∧
    (getRun (Config.mk false false false none false) (Except.ok 3) (some "w")
      initSt).2 = some (Except.ok 3) :=
  ⟨(c10_theorem (Config.mk false false false none false) (Or.inl rfl)).1 _,
   (c10_theorem (Config.mk false false false none false) (Or.inl rfl)).2 (some "w") 3⟩

/-! ## C9: generation-time dependency-graph cycle detection

Embedding of the `generate` command's graph construction and DFS
(src/packages/zerodi/src/cli.ts lines 174-213): the graph is a `Map` from
provider key to its dependency-key list built by `contents.reduce` (later
declarations overwrite), and `dfs` walks it with a recursion stack (`path`,
mirrored by the `recursionStack` set), a `visited` set and a `cycles`
accumulator.  The recursion is fuelled: `decls.length + 1` strictly exceeds the
number of distinct keys, which bounds the recursion depth, so the fuel never
runs out (proved via the `unvis` measure). -/

/-- One extracted provider declaration: its key and the values of its `deps`
mapping (cli.ts `Content.key` / `Content.deps`). -/
structure Decl where
  key : String
  deps : List String
deriving DecidableEq, Repr

/-- `contents.reduce((result, content) => result.set(content.key, values(content.deps)), new Map())`
(cli.ts lines 174-177). -/
def buildGraph (decls : List Decl) : List (String × List String) :=
  decls.foldl (fun g d => aset d.key d.deps g) []

/-- The DFS state: `visited`, the recursion path (`path`; the `recursionStack`
set always holds exactly the members of `path`), and recorded `cycles`. -/
structure DfsSt where
  visited : List String
  path : List String
  cycles : List (List String)
deriving DecidableEq, Repr

/-- `path.slice(path.indexOf(key))`: the suffix of `path` from the first
occurrence of `key`. -/
def sliceFrom (key : String) : List String → List String
  | [] => []
  | x :: t => if x = key then x :: t else sliceFrom key t

/-- The `dfs` closure (cli.ts lines 184-204), fuelled for termination.  A key
outside the graph returns at once; a key on the recursion path records the
cycle slice; a visited key is pruned; otherwise the key is marked visited,
pushed, its dependencies are traversed in order, and it is popped. -/
def dfs (g : List (String × List String)) : Nat → String → DfsSt → DfsSt
  | 0, _, st => st
  | fuel + 1, key, st =>
    match alookup key g with
    | none => st
    | some deps =>
      if key ∈ st.path then
        { st with cycles := st.cycles ++ [sliceFrom key st.path ++ [key]] }
      else if key ∈ st.visited then st
      else
        let st2 := deps.foldl (fun acc d => dfs g fuel d acc)
          { visited := key :: st.visited, path := st.path ++ [key]
            cycles := st.cycles }
        { st2 with path := st2.path.dropLast }

/-- The driver loop (cli.ts lines 206-209): dfs from every declared key not yet
visited. -/
def runDfs (decls : List Decl) : DfsSt :=
  decls.foldl
    (fun st d =>
      if d.key ∈ st.visited then st
      else dfs (buildGraph decls) (decls.length + 1) d.key st)
    ⟨[], [], []⟩

/-- The recorded cycles after the driver loop. -/
def cyclesOf (decls : List Decl) : List (List String) := (runDfs decls).cycles

/-- The cycle gate (cli.ts lines 211-213): with any recorded cycle, `generate`
throws before the registry artifact is rendered or written. -/
def generateOk (decls : List Decl) : Bool := (cyclesOf decls).isEmpty

/-- Edge of the dependency graph: `v` is among the dependency keys of `u`. -/
def EdgeG (g : List (String × List String)) (u v : String) : Prop :=
  v ∈ (alookup u g).getD []

instance (g : List (String × List String)) (u v : String) :
    Decidable (EdgeG g u v) := by
  unfold EdgeG
  infer_instance

/-- Walk predicate, decidably: `chainB g u l` holds when successive elements of
`u :: l` are joined by edges. -/
def chainB (g : List (String × List String)) : String → List String → Bool
  | _, [] => true
  | u, v :: t => decide (EdgeG g u v) && chainB g v t

def IsChain (g : List (String × List String)) (u : String) (l : List String) :
    Prop := chainB g u l = true

/-- A node lying on some directed cycle. -/
def OnCycle (g : List (String × List String)) (u : String) : Prop :=
  ∃ l, IsChain g u (l ++ [u])

/-- The graph contains a directed cycle. -/
def HasCycle (g : List (String × List String)) : Prop := ∃ u, OnCycle g u

/-- A recorded cycle list is a genuine closed walk. -/
def RealCycle (g : List (String × List String)) (c : List String) : Prop :=
  ∃ u l, c = u :: (l ++ [u]) ∧ IsChain g u (l ++ [u])

/-- `graph.has(key)`. -/
def InDom (g : List (String × List String)) (u : String) : Prop :=
  (alookup u g).isSome = true

/-- Walk predicate for a whole path list (edges between successive elements). -/
def ChainW (g : List (String × List String)) : List String → Prop
  | [] => True
  | h :: t => IsChain g h t

/-- Last element of `u :: l`. -/
def lastN (u : String) : List String → String
  | [] => u
  | v :: t => lastN v t

theorem isChain_nil (g : List (String × List String)) (u : String) :
    IsChain g u [] := rfl

theorem isChain_cons {g : List (String × List String)} {u v : String}
    {t : List String} : IsChain g u (v :: t) ↔ EdgeG g u v ∧ IsChain g v t := by
  simp [IsChain, chainB, Bool.and_eq_true]

theorem lastN_snoc (u w : String) (l : List String) : lastN u (l ++ [w]) = w := by
  induction l generalizing u with
  | nil => rfl
  | cons v t ih => exact ih v

theorem isChain_snoc {g : List (String × List String)} {u w : String}
    {l : List String} :
    IsChain g u (l ++ [w]) ↔ IsChain g u l ∧ EdgeG g (lastN u l) w := by
  induction l generalizing u with
  | nil =>
    simp only [List.nil_append, isChain_cons, lastN]
    constructor
    · rintro ⟨he, _⟩
      exact ⟨isChain_nil g u, he⟩
    · rintro ⟨_, he⟩
      exact ⟨he, isChain_nil g w⟩
  | cons v t ih =>
    rw [List.cons_append, isChain_cons, ih, isChain_cons]
    show EdgeG g u v ∧ IsChain g v t ∧ EdgeG g (lastN v t) w ↔
      (EdgeG g u v ∧ IsChain g v t) ∧ EdgeG g (lastN v t) w
    tauto

theorem chainW_of_isChain {g : List (String × List String)} {u : String}
    {l : List String} (h : IsChain g u l) : ChainW g l := by
  cases l with
  | nil => trivial
  | cons v t => exact (isChain_cons.mp h).2

theorem chainW_suffix {g : List (String × List String)} (a : List String)
    {b : List String} (h : ChainW g (a ++ b)) : ChainW g b := by
  induction a with
  | nil => exact h
  | cons x a' ih => exact ih (chainW_of_isChain (show IsChain g x (a' ++ b) from h))

theorem isChain_prefix {g : List (String × List String)} {u : String}
    (a b : List String) (h : IsChain g u (a ++ b)) : IsChain g u a := by
  induction a generalizing u with
  | nil => exact isChain_nil g u
  | cons v t ih =>
    rw [List.cons_append, isChain_cons] at h
    exact isChain_cons.mpr ⟨h.1, ih h.2⟩

theorem edge_dom {g : List (String × List String)} {u v : String}
    (h : EdgeG g u v) : InDom g u := by
  unfold EdgeG at h
  unfold InDom
  rcases hl : alookup u g with _ | ds
  · rw [hl] at h
    simp at h
  · simp [hl]

theorem onCycle_dom {g : List (String × List String)} {u : String}
    (h : OnCycle g u) : InDom g u := by
  obtain ⟨l, hc⟩ := h
  cases l with
  | nil => exact edge_dom (isChain_cons.mp (by simpa using hc)).1
  | cons v t => exact edge_dom (isChain_cons.mp (by simpa using hc)).1

theorem onCycle_rotate {g : List (String × List String)} {u v : String}
    {l' : List String} (he : EdgeG g u v) (hc : IsChain g v (l' ++ [u])) :
    OnCycle g v := by
  refine ⟨l' ++ [u], ?_⟩
  rw [show (l' ++ [u]) ++ [v] = (l' ++ [u]) ++ [v] from rfl, isChain_snoc]
  exact ⟨hc, by rw [lastN_snoc]; exact he⟩

theorem sliceFrom_spec {key : String} {p : List String} (h : key ∈ p) :
    ∃ pre rest, p = pre ++ (key :: rest) ∧ sliceFrom key p = key :: rest := by
  induction p with
  | nil => cases h
  | cons x t ih =>
    by_cases hx : x = key
    · subst hx
      exact ⟨[], t, by simp, by simp [sliceFrom]⟩
    · rcases List.mem_cons.mp h with h1 | h2
      · exact absurd h1.symm hx
      · obtain ⟨pre, rest, hp, hs⟩ := ih h2
        exact ⟨x :: pre, rest, by simp [hp], by simp [sliceFrom, hx, hs]⟩

/-- Keys of the graph map. -/
def keysOf (g : List (String × List String)) : List String := g.map Prod.fst

/-- Number of graph keys not yet visited: the fuel measure. -/
def unvis (g : List (String × List String)) (vis : List String) : Nat :=
  ((keysOf g).filter (fun k => decide (k ∉ vis))).length

theorem filter_length_mono {α : Type} (l : List α) (p q : α → Bool)
    (h : ∀ x, p x = true → q x = true) :
    (l.filter p).length ≤ (l.filter q).length := by
  induction l with
  | nil => simp
  | cons x t ih =>
    cases hp : p x with
    | true =>
      rw [List.filter_cons_of_pos hp, List.filter_cons_of_pos (h x hp)]
      simpa using ih
    | false =>
      rw [List.filter_cons_of_neg (by simp [hp])]
      cases hq : q x with
      | true =>
        rw [List.filter_cons_of_pos hq]
        exact le_trans ih (by simp)
      | false =>
        rw [List.filter_cons_of_neg (by simp [hq])]
        exact ih

theorem unvis_anti (g : List (String × List String)) {vis vis' : List String}
    (h : vis ⊆ vis') : unvis g vis' ≤ unvis g vis := by
  apply filter_length_mono
  intro x hx
  simp only [decide_eq_true_eq] at hx ⊢
  exact fun hm => hx (h hm)

theorem filter_notmem_cons_lt (l vis : List String) (key : String)
    (hk : key ∈ l) (hnv : key ∉ vis) :
    (l.filter (fun k => decide (k ∉ key :: vis))).length <
    (l.filter (fun k => decide (k ∉ vis))).length := by
  induction l with
  | nil => cases hk
  | cons x t ih =>
    have hmono := filter_length_mono t (fun k => decide (k ∉ key :: vis))
      (fun k => decide (k ∉ vis)) (by
        intro k hk2
        simp only [decide_eq_true_eq] at hk2 ⊢
        exact fun hm => hk2 (List.mem_cons_of_mem _ hm))
    rcases List.mem_cons.mp hk with rfl | hx
    · rw [List.filter_cons_of_neg (by simp), List.filter_cons_of_pos (by simp [hnv])]
      simpa using Nat.lt_succ_of_le hmono
    · by_cases h1 : x ∈ key :: vis
      · rw [List.filter_cons_of_neg (by simp [h1])]
        by_cases h2 : x ∈ vis
        · rw [List.filter_cons_of_neg (by simp [h2])]
          exact ih hx
        · rw [List.filter_cons_of_pos (by simp [h2])]
          exact lt_trans (ih hx) (by simp)
      · have h2 : x ∉ vis := fun hm => h1 (List.mem_cons_of_mem _ hm)
        rw [List.filter_cons_of_pos (by simp [h1]), List.filter_cons_of_pos (by simp [h2])]
        simpa using ih hx

theorem unvis_cons_lt (g : List (String × List String)) (vis : List String)
    (key : String) (hk : key ∈ keysOf g) (hnv : key ∉ vis) :
    unvis g (key :: vis) < unvis g vis :=
  filter_notmem_cons_lt (keysOf g) vis key hk hnv

theorem mem_keysOf_of_lookup {g : List (String × List String)} {k : String}
    {v : List String} (h : alookup k g = some v) : k ∈ keysOf g := by
  induction g with
  | nil => simp [alookup] at h
  | cons hd t ih =>
    obtain ⟨k', v'⟩ := hd
    by_cases hk : k = k'
    · simp [keysOf, hk]
    · rw [alookup, if_neg hk] at h
      simp only [keysOf, List.map_cons, List.mem_cons]
      right
      exact ih h

theorem mem_keysOf_aset {g : List (String × List String)} {k x : String}
    {v : List String} (h : x ∈ keysOf (aset k v g)) : x = k ∨ x ∈ keysOf g := by
  induction g with
  | nil =>
    rcases List.mem_cons.mp (show x ∈ [k] from h) with h1 | h1
    · exact Or.inl h1
    · cases h1
  | cons hd t ih =>
    obtain ⟨k', v'⟩ := hd
    by_cases hk : k = k'
    · subst hk
      rw [show aset k v ((k, v') :: t) = (k, v) :: t from by rw [aset, if_pos rfl]] at h
      rcases List.mem_cons.mp (show x ∈ k :: keysOf t from h) with h1 | h1
      · exact Or.inl h1
      · exact Or.inr (List.mem_cons_of_mem _ h1)
    · rw [show aset k v ((k', v') :: t) = (k', v') :: aset k v t from by
          rw [aset, if_neg hk]] at h
      rcases List.mem_cons.mp (show x ∈ k' :: keysOf (aset k v t) from h) with h1 | h1
      · exact Or.inr (by rw [h1]; exact List.mem_cons_self _ _)
      · rcases ih h1 with h2 | h2
        · exact Or.inl h2
        · exact Or.inr (List.mem_cons_of_mem _ h2)

theorem keysOf_aset_length (k : String) (v : List String)
    (g : List (String × List String)) :
    (keysOf (aset k v g)).length ≤ (keysOf g).length + 1 := by
  induction g with
  | nil => simp [aset, keysOf]
  | cons hd t ih =>
    obtain ⟨k', v'⟩ := hd
    by_cases hk : k = k'
    · subst hk
      simp [aset, keysOf]
    · rw [aset, if_neg hk]
      simp only [keysOf, List.map_cons, List.length_cons] at ih ⊢
      omega

theorem keysOf_buildGraph_length (decls : List Decl) :
    (keysOf (buildGraph decls)).length ≤ decls.length := by
  have hgen : ∀ (ds : List Decl) (g0 : List (String × List String)),
      (keysOf (ds.foldl (fun g d => aset d.key d.deps g) g0)).length ≤
      ds.length + (keysOf g0).length := by
    intro ds
    induction ds with
    | nil => simp
    | cons d t ih =>
      intro g0
      rw [List.foldl_cons]
      calc (keysOf (t.foldl (fun g d => aset d.key d.deps g)
            (aset d.key d.deps g0))).length ≤
          t.length + (keysOf (aset d.key d.deps g0)).length := ih _
        _ ≤ t.length + ((keysOf g0).length + 1) := by
            have := keysOf_aset_length d.key d.deps g0
            omega
        _ = (d :: t).length + (keysOf g0).length := by
            simp [List.length_cons]
            omega
  have := hgen decls []
  simpa [buildGraph, keysOf] using this

theorem unvis_le_keys (g : List (String × List String)) (vis : List String) :
    unvis g vis ≤ (keysOf g).length :=
  List.length_filter_le _ _

theorem dropLast_snoc (a : String) (l : List String) :
    (l ++ [a]).dropLast = l := by
  induction l with
  | nil => rfl
  | cons x t ih =>
    rw [List.cons_append, List.dropLast_cons_of_ne_nil (by simp), ih]

theorem chainW_snoc (g : List (String × List String)) {p : List String}
    {k d : String} (hc : ChainW g (p ++ [k])) (he : EdgeG g k d) :
    ChainW g ((p ++ [k]) ++ [d]) := by
  cases p with
  | nil =>
    show IsChain g k [d]
    exact isChain_cons.mpr ⟨he, isChain_nil g d⟩
  | cons h0 t0 =>
    show IsChain g h0 ((t0 ++ [k]) ++ [d])
    rw [isChain_snoc]
    refine ⟨show IsChain g h0 (t0 ++ [k]) from hc, ?_⟩
    rw [show lastN h0 (t0 ++ [k]) = k from lastN_snoc h0 k t0]
    exact he

/-- A node whose DFS exploration has completed: visited and off the recursion
path. -/
def Finished (st : DfsSt) (u : String) : Prop := u ∈ st.visited ∧ u ∉ st.path

/-- The DFS invariant: the recursion path is an edge chain; while no cycle has
been recorded, the finished region is closed under in-graph successors and
contains no node of any cycle; every recorded cycle is a genuine closed walk. -/
structure Inv9 (g : List (String × List String)) (st : DfsSt) : Prop where
  chainP : ChainW g st.path
  closedF : st.cycles = [] → ∀ u, Finished st u → ∀ v, EdgeG g u v →
    InDom g v → Finished st v
  noCycF : st.cycles = [] → ∀ u, Finished st u → ¬ OnCycle g u
  realC : ∀ c ∈ st.cycles, RealCycle g c

theorem dfs_spec (g : List (String × List String)) :
    ∀ (fuel : Nat) (key : String) (st : DfsSt),
    unvis g st.visited < fuel →
    Inv9 g st →
    ChainW g (st.path ++ [key]) →
    (dfs g fuel key st).path = st.path ∧
    st.visited ⊆ (dfs g fuel key st).visited ∧
    (∃ cs, (dfs g fuel key st).cycles = st.cycles ++ cs) ∧
    Inv9 g (dfs g fuel key st) ∧
    ((dfs g fuel key st).cycles = st.cycles → InDom g key →
      Finished (dfs g fuel key st) key) := by
  intro fuel
  induction fuel with
  | zero =>
    intro key st hf
    exact absurd hf (Nat.not_lt_zero _)
  | succ fuel ih =>
    have foldSpec : ∀ (ds : List String) (st1 : DfsSt),
        unvis g st1.visited < fuel →
        Inv9 g st1 →
        (∀ d ∈ ds, ChainW g (st1.path ++ [d])) →
        (ds.foldl (fun acc d => dfs g fuel d acc) st1).path = st1.path ∧
        st1.visited ⊆ (ds.foldl (fun acc d => dfs g fuel d acc) st1).visited ∧
        (∃ cs, (ds.foldl (fun acc d => dfs g fuel d acc) st1).cycles =
          st1.cycles ++ cs) ∧
        Inv9 g (ds.foldl (fun acc d => dfs g fuel d acc) st1) ∧
        ((ds.foldl (fun acc d => dfs g fuel d acc) st1).cycles = st1.cycles →
          ∀ d ∈ ds, InDom g d →
          Finished (ds.foldl (fun acc d => dfs g fuel d acc) st1) d) := by
      intro ds
      induction ds with
      | nil =>
        intro st1 _ hinv _
        exact ⟨rfl, fun x hx => hx, ⟨[], by simp⟩, hinv,
          by intro _ d hd; exact absurd hd (List.not_mem_nil d)⟩
      | cons d ds ihds =>
        intro st1 hfu hinv hch
        rw [List.foldl_cons]
        obtain ⟨p1, v1, ⟨cs1, hc1⟩, hi1, hk1⟩ :=
          ih d st1 hfu hinv (hch d (List.mem_cons_self d ds))
        obtain ⟨p2, v2, ⟨cs2, hc2⟩, hi2, hk2⟩ := ihds (dfs g fuel d st1)
          (lt_of_le_of_lt (unvis_anti g v1) hfu)
          hi1
          (by
            intro d' hd'
            rw [p1]
            exact hch d' (List.mem_cons_of_mem _ hd'))
        refine ⟨?_, ?_, ?_, hi2, ?_⟩
        · rw [p2, p1]
        · exact fun x hx => v2 (v1 hx)
        · exact ⟨cs1 ++ cs2, by
            rw [hc2, hc1, List.append_assoc]⟩
        · intro hceq d' hd' hdom
          have hlen := congrArg List.length hceq
          rw [hc2, hc1] at hlen
          simp only [List.length_append] at hlen
          have hcs1 : cs1 = [] := List.length_eq_zero.mp (by omega)
          have hcs2 : cs2 = [] := List.length_eq_zero.mp (by omega)
          rcases List.mem_cons.mp hd' with rfl | hd2
          · have hstep : (dfs g fuel d' st1).cycles = st1.cycles := by
              rw [hc1, hcs1, List.append_nil]
            have hfin := hk1 hstep hdom
            refine ⟨v2 hfin.1, ?_⟩
            rw [p2]
            exact hfin.2
          · have hstep2 : (ds.foldl (fun acc d => dfs g fuel d acc)
                (dfs g fuel d st1)).cycles = (dfs g fuel d st1).cycles := by
              rw [hc2, hcs2, List.append_nil]
            exact hk2 hstep2 d' hd2 hdom
    intro key st hf hinv hch
    simp only [dfs]
    rcases hlk : alookup key g with _ | deps
    · simp only [hlk]
      refine ⟨by simp, fun x hx => hx, ⟨[], by simp⟩, hinv, ?_⟩
      intro _ hdom
      rw [InDom, hlk] at hdom
      simp at hdom
    · simp only [hlk]
      by_cases hp : key ∈ st.path
      · rw [if_pos hp]
        obtain ⟨pre, rest, hsplit, hslice⟩ := sliceFrom_spec hp
        have hreal : RealCycle g (sliceFrom key st.path ++ [key]) := by
          refine ⟨key, rest, by rw [hslice]; simp, ?_⟩
          have hch2 : ChainW g (pre ++ ((key :: rest) ++ [key])) := by
            rw [← List.append_assoc, ← hsplit]
            exact hch
          exact chainW_suffix pre hch2
        refine ⟨by simp, fun x hx => hx,
          ⟨[sliceFrom key st.path ++ [key]], by simp⟩, ?_, ?_⟩
        · refine ⟨hinv.chainP, ?_, ?_, ?_⟩
          · intro hc
            exact absurd hc (by simp)
          · intro hc
            exact absurd hc (by simp)
          · intro c hc
            rcases List.mem_append.mp hc with h1 | h1
            · exact hinv.realC c h1
            · rw [List.mem_singleton] at h1
              rw [h1]
              exact hreal
        · intro hceq
          exfalso
          have := congrArg List.length hceq
          simp at this
      · rw [if_neg hp]
        by_cases hv : key ∈ st.visited
        · rw [if_pos hv]
          exact ⟨by simp, fun x hx => hx, ⟨[], by simp⟩, hinv, fun _ _ => ⟨hv, hp⟩⟩
        · rw [if_neg hv]
          have hinv1 : Inv9 g
              (⟨key :: st.visited, st.path ++ [key], st.cycles⟩ : DfsSt) := by
            refine ⟨hch, ?_, ?_, hinv.realC⟩
            · intro hc u hu v he hdom
              obtain ⟨hu1, hu2⟩ := hu
              have hune : u ≠ key := by
                intro heq
                exact hu2 (by
                  rw [heq]
                  exact List.mem_append_right _ (List.mem_singleton.mpr rfl))
              have hu1' : u ∈ st.visited := by
                rcases List.mem_cons.mp hu1 with h1 | h1
                · exact absurd h1 hune
                · exact h1
              have hu2' : u ∉ st.path := fun hm => hu2 (List.mem_append_left _ hm)
              have hfin := hinv.closedF hc u ⟨hu1', hu2'⟩ v he hdom
              refine ⟨List.mem_cons_of_mem _ hfin.1, ?_⟩
              intro hm
              rcases List.mem_append.mp hm with h1 | h1
              · exact hfin.2 h1
              · rw [List.mem_singleton] at h1
                exact hv (h1 ▸ hfin.1)
            · intro hc u hu
              obtain ⟨hu1, hu2⟩ := hu
              have hune : u ≠ key := by
                intro heq
                exact hu2 (by
                  rw [heq]
                  exact List.mem_append_right _ (List.mem_singleton.mpr rfl))
              have hu1' : u ∈ st.visited := by
                rcases List.mem_cons.mp hu1 with h1 | h1
                · exact absurd h1 hune
                · exact h1
              have hu2' : u ∉ st.path := fun hm => hu2 (List.mem_append_left _ hm)
              exact hinv.noCycF hc u ⟨hu1', hu2'⟩
          have hfu1 : unvis g
              ((⟨key :: st.visited, st.path ++ [key], st.cycles⟩ : DfsSt)).visited <
              fuel := by
            have h1 : unvis g (key :: st.visited) < unvis g st.visited :=
              unvis_cons_lt g st.visited key (mem_keysOf_of_lookup hlk) hv
            show unvis g (key :: st.visited) < fuel
            omega
          have hch1 : ∀ d ∈ deps, ChainW g
              ((⟨key :: st.visited, st.path ++ [key], st.cycles⟩ : DfsSt).path ++
                [d]) := by
            intro d hd
            have he : EdgeG g key d := by
              unfold EdgeG
              rw [hlk]
              simpa using hd
            exact chainW_snoc g hch he
          obtain ⟨fp, fv, ⟨fcs, fc⟩, finv, fkey⟩ :=
            foldSpec deps ⟨key :: st.visited, st.path ++ [key], st.cycles⟩
              hfu1 hinv1 hch1
          set st2 : DfsSt := deps.foldl (fun acc d => dfs g fuel d acc)
            ⟨key :: st.visited, st.path ++ [key], st.cycles⟩ with hst2
          have hdrop : st2.path.dropLast = st.path := by
            rw [fp]
            exact dropLast_snoc key st.path
          have hInDomKey : InDom g key := by
            unfold InDom
            rw [hlk]
            rfl
          have hkeyPath2 : key ∈ st2.path := by
            rw [fp]
            exact List.mem_append_right _ (List.mem_singleton.mpr rfl)
          refine ⟨hdrop, ?_, ?_, ?_, ?_⟩
          · intro x hx
            exact fv (List.mem_cons_of_mem _ hx)
          · exact ⟨fcs, fc⟩
          · -- the invariant after the pop
            have hFinTrans : ∀ w, Finished st2 w →
                Finished ({ st2 with path := st2.path.dropLast } : DfsSt) w := by
              intro w hw
              refine ⟨hw.1, ?_⟩
              rw [hdrop]
              intro hm
              exact hw.2 (by
                rw [fp]
                exact List.mem_append_left _ hm)
            refine ⟨?_, ?_, ?_, ?_⟩
            · show ChainW g st2.path.dropLast
              rw [hdrop]
              exact hinv.chainP
            · intro hc u hu v he hdom
              have hc2 : st2.cycles = [] := hc
              have hcsplit := List.append_eq_nil.mp (by rw [← fc]; exact hc2)
              have hc2' : st2.cycles = st.cycles := by
                rw [fc, hcsplit.2, List.append_nil]
              obtain ⟨hu1, hu2⟩ := hu
              rw [hdrop] at hu2
              by_cases hukey : u = key
              · subst hukey
                have hvdeps : v ∈ deps := by
                  unfold EdgeG at he
                  rw [hlk] at he
                  simpa using he
                have hfin2 := fkey hc2' v hvdeps hdom
                exact hFinTrans v hfin2
              · have hu2' : u ∉ st2.path := by
                  rw [fp]
                  intro hm
                  rcases List.mem_append.mp hm with h1 | h1
                  · exact hu2 h1
                  · rw [List.mem_singleton] at h1
                    exact hukey h1
                have hfin2 := finv.closedF hc2 u ⟨hu1, hu2'⟩ v he hdom
                exact hFinTrans v hfin2
            · intro hc u hu hcyc
              have hc2 : st2.cycles = [] := hc
              have hcsplit := List.append_eq_nil.mp (by rw [← fc]; exact hc2)
              have hc2' : st2.cycles = st.cycles := by
                rw [fc, hcsplit.2, List.append_nil]
              obtain ⟨hu1, hu2⟩ := hu
              rw [hdrop] at hu2
              by_cases hukey : u = key
              · subst hukey
                obtain ⟨l, hchain⟩ := hcyc
                cases l with
                | nil =>
                  have hedge : EdgeG g u u := (isChain_cons.mp (by simpa using hchain)).1
                  have hudeps : u ∈ deps := by
                    unfold EdgeG at hedge
                    rw [hlk] at hedge
                    simpa using hedge
                  have hfin2 := fkey hc2' u hudeps hInDomKey
                  exact hfin2.2 hkeyPath2
                | cons w l' =>
                  have hcons := isChain_cons.mp (by simpa using hchain)
                  have hedge : EdgeG g u w := hcons.1
                  have hrot : OnCycle g w := onCycle_rotate hedge hcons.2
                  have hwdom : InDom g w := onCycle_dom hrot
                  have hwdeps : w ∈ deps := by
                    unfold EdgeG at hedge
                    rw [hlk] at hedge
                    simpa using hedge
                  have hfin2 := fkey hc2' w hwdeps hwdom
                  exact finv.noCycF hc2 w hfin2 hrot
              · have hu2' : u ∉ st2.path := by
                  rw [fp]
                  intro hm
                  rcases List.mem_append.mp hm with h1 | h1
                  · exact hu2 h1
                  · rw [List.mem_singleton] at h1
                    exact hukey h1
                exact finv.noCycF hc2 u ⟨hu1, hu2'⟩ hcyc
            · intro c hc
              exact finv.realC c hc
          · intro hceq _
            refine ⟨fv (List.mem_cons_self _ _), ?_⟩
            show key ∉ st2.path.dropLast
            rw [hdrop]
            exact hp

theorem mem_keysOf_of_inDom {g : List (String × List String)} {u : String}
    (h : InDom g u) : u ∈ keysOf g := by
  unfold InDom at h
  rcases hl : alookup u g with _ | v
  · rw [hl] at h
    simp at h
  · exact mem_keysOf_of_lookup hl

theorem mem_keysOf_buildGraph {decls : List Decl} {x : String}
    (h : x ∈ keysOf (buildGraph decls)) : ∃ d ∈ decls, d.key = x := by
  have hgen : ∀ (ds : List Decl) (g0 : List (String × List String)),
      x ∈ keysOf (ds.foldl (fun g d => aset d.key d.deps g) g0) →
      (∃ d ∈ ds, d.key = x) ∨ x ∈ keysOf g0 := by
    intro ds
    induction ds with
    | nil =>
      intro g0 h0
      exact Or.inr h0
    | cons d t ih =>
      intro g0 h0
      rw [List.foldl_cons] at h0
      rcases ih _ h0 with h1 | h1
      · obtain ⟨d', hd', hk⟩ := h1
        exact Or.inl ⟨d', List.mem_cons_of_mem _ hd', hk⟩
      · rcases mem_keysOf_aset h1 with h2 | h2
        · exact Or.inl ⟨d, List.mem_cons_self _ _, h2.symm⟩
        · exact Or.inr h2
  rcases hgen decls [] h with h1 | h1
  · exact h1
  · exact absurd h1 (by simp [keysOf])

theorem runDfs_fold_spec (g : List (String × List String)) (fuel : Nat) :
    ∀ (ds : List Decl) (st : DfsSt),
    unvis g st.visited < fuel →
    Inv9 g st →
    st.path = [] →
    (ds.foldl (fun st d => if d.key ∈ st.visited then st
      else dfs g fuel d.key st) st).path = [] ∧
    st.visited ⊆ (ds.foldl (fun st d => if d.key ∈ st.visited then st
      else dfs g fuel d.key st) st).visited ∧
    (∃ cs, (ds.foldl (fun st d => if d.key ∈ st.visited then st
      else dfs g fuel d.key st) st).cycles = st.cycles ++ cs) ∧
    Inv9 g (ds.foldl (fun st d => if d.key ∈ st.visited then st
      else dfs g fuel d.key st) st) ∧
    ((ds.foldl (fun st d => if d.key ∈ st.visited then st
      else dfs g fuel d.key st) st).cycles = st.cycles →
      ∀ d ∈ ds, InDom g d.key →
      d.key ∈ (ds.foldl (fun st d => if d.key ∈ st.visited then st
        else dfs g fuel d.key st) st).visited) := by
  intro ds
  induction ds with
  | nil =>
    intro st _ hinv hpath
    exact ⟨hpath, fun x hx => hx, ⟨[], by simp⟩, hinv,
      by intro _ d hd; exact absurd hd (List.not_mem_nil d)⟩
  | cons d ds ihds =>
    intro st hfu hinv hpath
    rw [List.foldl_cons]
    by_cases hvd : d.key ∈ st.visited
    · rw [if_pos hvd]
      obtain ⟨p2, v2, hc2, hi2, hk2⟩ := ihds st hfu hinv hpath
      refine ⟨p2, v2, hc2, hi2, ?_⟩
      intro hceq d' hd' hdom
      rcases List.mem_cons.mp hd' with rfl | hd2
      · exact v2 hvd
      · exact hk2 hceq d' hd2 hdom
    · rw [if_neg hvd]
      have hchd : ChainW g (st.path ++ [d.key]) := by
        rw [hpath]
        show IsChain g d.key []
        exact isChain_nil g d.key
      obtain ⟨p1, v1, ⟨cs1, hc1⟩, hi1, hk1⟩ :=
        dfs_spec g fuel d.key st hfu hinv hchd
      obtain ⟨p2, v2, ⟨cs2, hc2⟩, hi2, hk2⟩ := ihds (dfs g fuel d.key st)
        (lt_of_le_of_lt (unvis_anti g v1) hfu)
        hi1
        (by rw [p1, hpath])
      refine ⟨p2, fun x hx => v2 (v1 hx),
        ⟨cs1 ++ cs2, by rw [hc2, hc1, List.append_assoc]⟩, hi2, ?_⟩
      intro hceq d' hd' hdom
      have hlen := congrArg List.length hceq
      rw [hc2, hc1] at hlen
      simp only [List.length_append] at hlen
      have hcs1 : cs1 = [] := List.length_eq_zero.mp (by omega)
      have hcs2 : cs2 = [] := List.length_eq_zero.mp (by omega)
      rcases List.mem_cons.mp hd' with rfl | hd2
      · have hstep : (dfs g fuel d'.key st).cycles = st.cycles := by
          rw [hc1, hcs1, List.append_nil]
        exact v2 (hk1 hstep hdom).1
      · have hstep2 : (ds.foldl (fun st d => if d.key ∈ st.visited then st
            else dfs g fuel d.key st) (dfs g fuel d.key st)).cycles =
            (dfs g fuel d.key st).cycles := by
          rw [hc2, hcs2, List.append_nil]
        exact hk2 hstep2 d' hd2 hdom

theorem runDfs_spec (decls : List Decl) :
    (runDfs decls).path = [] ∧
    Inv9 (buildGraph decls) (runDfs decls) ∧
    ((runDfs decls).cycles = [] → ∀ d ∈ decls,
      InDom (buildGraph decls) d.key → d.key ∈ (runDfs decls).visited) := by
  have hinv0 : Inv9 (buildGraph decls) (⟨[], [], []⟩ : DfsSt) := by
    refine ⟨trivial, ?_, ?_, ?_⟩
    · intro _ u hu
      exact absurd hu.1 (List.not_mem_nil u)
    · intro _ u hu
      exact absurd hu.1 (List.not_mem_nil u)
    · intro c hc
      exact absurd hc (List.not_mem_nil c)
  have hfu0 : unvis (buildGraph decls) (([] : List String)) < decls.length + 1 := by
    have h1 := unvis_le_keys (buildGraph decls) ([] : List String)
    have h2 := keysOf_buildGraph_length decls
    omega
  obtain ⟨p, _, ⟨cs, hc⟩, hi, hk⟩ := runDfs_fold_spec (buildGraph decls)
    (decls.length + 1) decls ⟨[], [], []⟩ hfu0 hinv0 rfl
  refine ⟨p, hi, ?_⟩
  intro hnil d hd hdom
  have hnil' : (decls.foldl (fun st d => if d.key ∈ st.visited then st
      else dfs (buildGraph decls) (decls.length + 1) d.key st)
      (⟨[], [], []⟩ : DfsSt)).cycles = [] := hnil
  exact hk hnil' d hd hdom

/-- C9: the DFS cycle gate is sound and complete.  For every declaration list
whose key-to-dependency-key graph contains a cycle, generation records at least
one cycle and aborts (the registry is not emitted); for every acyclic input it
records none and generation succeeds; and every recorded cycle is a genuine
closed walk of the graph. -/
theorem c9_theorem (decls : List Decl) :
    (HasCycle (buildGraph decls) →
      generateOk decls = false ∧ cyclesOf decls ≠ []) ∧
    (¬ HasCycle (buildGraph decls) →
      generateOk decls = true ∧ cyclesOf decls = []) ∧
    (∀ c ∈ cyclesOf decls, RealCycle (buildGraph decls) c) := by
  obtain ⟨hpath, hinv, hkey⟩ := runDfs_spec decls
  have sound : ∀ c ∈ cyclesOf decls, RealCycle (buildGraph decls) c :=
    fun c hc => hinv.realC c hc
  have complete : cyclesOf decls = [] → ¬ HasCycle (buildGraph decls) := by
    intro hnil hcy
    obtain ⟨u, hcyc⟩ := hcy
    have hdom := onCycle_dom hcyc
    obtain ⟨d, hd, hdk⟩ := mem_keysOf_buildGraph (mem_keysOf_of_inDom hdom)
    have hvis := hkey hnil d hd (by rw [hdk]; exact hdom)
    have hfin : Finished (runDfs decls) u := by
      refine ⟨by rw [← hdk]; exact hvis, ?_⟩
      rw [hpath]
      exact List.not_mem_nil u
    exact hinv.noCycF hnil u hfin hcyc
  refine ⟨?_, ?_, sound⟩
  · intro hcy
    have hne : cyclesOf decls ≠ [] := fun hnil => complete hnil hcy
    rcases hcl : cyclesOf decls with _ | ⟨c, cs⟩
    · exact absurd hcl hne
    · constructor
      · unfold generateOk
        rw [hcl]
        rfl
      · simp
  · intro hncy
    rcases hcl : cyclesOf decls with _ | ⟨c, cs⟩
    · constructor
      · unfold generateOk
        rw [hcl]
        rfl
      · rfl
    · exfalso
      have hr := sound c (by rw [hcl]; exact List.mem_cons_self _ _)
      obtain ⟨u, l, _, hchain⟩ := hr
      exact hncy ⟨u, ⟨l, hchain⟩⟩

/-- The cyclic example from the spec: A→B→C→A. -/
def cyc9 : List Decl := [⟨"A", ["B"]⟩, ⟨"B", ["C"]⟩, ⟨"C", ["A"]⟩]

/-- The acyclic example from the spec: A→B, A→C, B→D. -/
def acyc9 : List Decl := [⟨"A", ["B", "C"]⟩, ⟨"B", ["D"]⟩, ⟨"C", []⟩, ⟨"D", []⟩]

/-- C9, witness: the cyclic example A→B→C→A aborts generation; the acyclic
example A→B, A→C, B→D generates successfully. -/
theorem c9_witness : generateOk cyc9 = false ∧ generateOk acyc9 = true := by
  constructor
  · exact ((c9_theorem cyc9).1 ⟨"A", ["B", "C"], by unfold IsChain; decide⟩).1
  · refine ((c9_theorem acyc9).2.1 ?_).1
    intro hcy
    have := ((c9_theorem acyc9).1 hcy).2
    exact this (by decide)

end Zerodi
